import Mathlib

/-!
Verification of the Record Reconciliation Engine of `app.py`
(`ExcelComparisonTool`): a shallow embedding in Lean 4 of the functions
`clean_name`, `find_match_for_value`, `process_data` (validation, the
per-row matching loop, replace-column writes, tracking fields,
statistics), and the whole-column replace/preview/undo facility
(`replace_entire_column`, `undo_replace_column`).

Modelling conventions:
* pandas DataFrames are `List Row`, a `Row` being an ordered association
  list of column name to `Cell`; original data cells are strings (the
  caller guarantees string-typed fields), while the engine-written
  `Confidence` tracking field holds a number.
* A missing cell / `NaN` reads as `""`, matching `clean_name`'s
  `pd.isna` branch and `Series.get(col, "")`.
* Python `float` is modelled as `ℚ`; `round(x, 3)` as round-half-to-even
  on `ℚ`.
* Characters are treated ASCII-wise: Python's `\s`, `\w`, `str.lower`,
  `str.strip` are modelled by their ASCII behaviour.
* `difflib.SequenceMatcher.ratio` (and the scoring inside
  `get_close_matches`) is an opaque similarity parameter `ratio` of the
  configuration: no claim depends on particular similarity values, only
  on how the engine uses them (first best candidate at or above the
  cutoff, recomputed ratio reported as confidence).
-/

/-! ## Characters: ASCII models of Python character classes -/

/-- ASCII model of Python's whitespace class (`\s` of `re`, `str.strip`,
`str.isspace`): space, tab, newline, carriage return, vertical tab, form feed. -/
def isPySpace (c : Char) : Bool :=
  c = ' ' || c = '\t' || c = '\n' || c = '\r' || c = '\x0b' || c = '\x0c'

/-- ASCII model of Python's word class `\w`: letters, digits, underscore. -/
def isWordChar (c : Char) : Bool :=
  c.isAlphanum || c = '_'

/-- The characters kept by `clean_name`'s second regex
`re.sub(r'[^\w\s\-]', '', name)`: word characters, whitespace, hyphen. -/
def keepChar (c : Char) : Bool :=
  isWordChar c || isPySpace c || c = '-'

/-! ## Normalizer: `clean_name` (app.py lines 2026-2036) -/

/-- Python `str.strip()`: drop leading and trailing whitespace. -/
def pyStrip (l : List Char) : List Char :=
  ((l.dropWhile isPySpace).reverse.dropWhile isPySpace).reverse

/-- `str.strip()` on a `String`. -/
def pyStripStr (s : String) : String :=
  String.mk (pyStrip s.data)

/-- Worker for `re.sub(r'\s+', ' ', name)`: each maximal run of whitespace
characters becomes a single `' '`. The flag records whether we are inside
a whitespace run already replaced by a space. -/
def collapseAux : Bool → List Char → List Char
  | _, [] => []
  | inRun, c :: cs =>
    if isPySpace c then
      if inRun then collapseAux true cs else ' ' :: collapseAux true cs
    else c :: collapseAux false cs

/-- `re.sub(r'\s+', ' ', name)`. -/
def collapseWs (l : List Char) : List Char :=
  collapseAux false l

/-- Python `str.lower()` (ASCII model), applied characterwise. -/
def lowerChars (l : List Char) : List Char :=
  l.map Char.toLower

/-- `re.sub(r'[^\w\s\-]', '', name)`: remove all characters except word
characters, whitespace and hyphens. -/
def removeSpecial (l : List Char) : List Char :=
  l.filter keepChar

/-- `clean_name` (app.py 2026-2036) on a string value: strip surrounding
whitespace, collapse whitespace runs to one space, lower-case, then drop
every character that is not a word character, whitespace or hyphen. -/
def cleanName (s : String) : String :=
  String.mk (removeSpecial (lowerChars (collapseWs (pyStrip s.data))))

/-- `clean_name` on a possibly missing value: `pd.isna(name)` (or `None`)
returns `""` before the pipeline runs. -/
def cleanNameOpt : Option String → String
  | none => ""
  | some s => cleanName s

/-! ### Whitespace lemmas for the normalizer -/

/-- A list does not start with a whitespace character. -/
def noLeadSpace (l : List Char) : Bool :=
  match l.head? with
  | none => true
  | some c => !isPySpace c

/-- A list does not end with a whitespace character. -/
def noTrailSpace (l : List Char) : Bool :=
  match l.getLast? with
  | none => true
  | some c => !isPySpace c

theorem noTrail_cons (c : Char) (l : List Char) (hl : l ≠ []) :
    noTrailSpace (c :: l) = noTrailSpace l := by
  cases l with
  | nil => exact absurd rfl hl
  | cons d ds => simp [noTrailSpace, List.getLast?_cons_cons]

theorem noLead_dropWhile (l : List Char) :
    noLeadSpace (l.dropWhile isPySpace) = true := by
  induction l with
  | nil => rfl
  | cons c cs ih =>
    by_cases h : isPySpace c = true
    · rw [List.dropWhile_cons_of_pos h]; exact ih
    · rw [List.dropWhile_cons_of_neg h]
      simp [noLeadSpace, h]

theorem noTrail_dropWhile (l : List Char) (h : noTrailSpace l = true) :
    noTrailSpace (l.dropWhile isPySpace) = true := by
  induction l with
  | nil => rfl
  | cons c cs ih =>
    by_cases hc : isPySpace c = true
    · cases cs with
      | nil => simp [noTrailSpace, hc] at h
      | cons c2 cs2 =>
        have h2 : noTrailSpace (c2 :: cs2) = true := by
          rwa [noTrail_cons c (c2 :: cs2) (by simp)] at h
        rw [List.dropWhile_cons_of_pos hc]
        exact ih h2
    · rwa [List.dropWhile_cons_of_neg hc]

theorem noLead_reverse (l : List Char) (h : noTrailSpace l = true) :
    noLeadSpace l.reverse = true := by
  unfold noLeadSpace
  rw [List.head?_reverse]
  unfold noTrailSpace at h
  exact h

theorem noTrail_reverse (l : List Char) (h : noLeadSpace l = true) :
    noTrailSpace l.reverse = true := by
  unfold noTrailSpace
  rw [List.getLast?_reverse]
  unfold noLeadSpace at h
  exact h

theorem pyStrip_noLead (l : List Char) : noLeadSpace (pyStrip l) = true := by
  unfold pyStrip
  apply noLead_reverse
  apply noTrail_dropWhile
  apply noTrail_reverse
  apply noLead_dropWhile

theorem pyStrip_noTrail (l : List Char) : noTrailSpace (pyStrip l) = true := by
  unfold pyStrip
  apply noTrail_reverse
  apply noLead_dropWhile

theorem dropWhile_eq_self_of_noLead (l : List Char) (h : noLeadSpace l = true) :
    l.dropWhile isPySpace = l := by
  cases l with
  | nil => rfl
  | cons c cs =>
    have hc : ¬ isPySpace c = true := by
      simp only [noLeadSpace, List.head?_cons, Bool.not_eq_true'] at h
      simp [h]
    rw [List.dropWhile_cons_of_neg hc]

theorem pyStrip_eq_self (l : List Char) (h1 : noLeadSpace l = true)
    (h2 : noTrailSpace l = true) : pyStrip l = l := by
  unfold pyStrip
  rw [dropWhile_eq_self_of_noLead l h1,
    dropWhile_eq_self_of_noLead l.reverse (noLead_reverse l h2),
    List.reverse_reverse]

theorem collapseAux_cons_space_true (c : Char) (cs : List Char)
    (hc : isPySpace c = true) :
    collapseAux true (c :: cs) = collapseAux true cs := by
  simp [collapseAux, hc]

theorem collapseAux_cons_space_false (c : Char) (cs : List Char)
    (hc : isPySpace c = true) :
    collapseAux false (c :: cs) = ' ' :: collapseAux true cs := by
  simp [collapseAux, hc]

theorem collapseAux_cons_nonspace (b : Bool) (c : Char) (cs : List Char)
    (hc : isPySpace c = false) :
    collapseAux b (c :: cs) = c :: collapseAux false cs := by
  simp [collapseAux, hc]

theorem collapseAux_idem (l : List Char) :
    ∀ b, collapseAux b (collapseAux b l) = collapseAux b l := by
  induction l with
  | nil => intro b; rfl
  | cons c cs ih =>
    intro b
    by_cases hc : isPySpace c = true
    · cases b with
      | true => rw [collapseAux_cons_space_true c cs hc]; exact ih true
      | false =>
        rw [collapseAux_cons_space_false c cs hc,
          collapseAux_cons_space_false ' ' (collapseAux true cs) (by decide),
          ih true]
    · have hc' : isPySpace c = false := by simpa using hc
      rw [collapseAux_cons_nonspace b c cs hc',
        collapseAux_cons_nonspace b c (collapseAux false cs) hc',
        ih false]

theorem collapse_noLead (l : List Char) (h : noLeadSpace l = true) :
    noLeadSpace (collapseWs l) = true := by
  cases l with
  | nil => rfl
  | cons c cs =>
    have hc : isPySpace c = false := by
      simp only [noLeadSpace, List.head?_cons, Bool.not_eq_true'] at h
      exact h
    unfold collapseWs
    rw [collapseAux_cons_nonspace false c cs hc]
    simp [noLeadSpace, hc]

theorem collapse_noTrail (l : List Char) :
    ∀ b, noTrailSpace l = true →
      noTrailSpace (collapseAux b l) = true ∧ (l ≠ [] → collapseAux b l ≠ []) := by
  induction l with
  | nil => intro b _; exact ⟨rfl, fun h => absurd rfl h⟩
  | cons c cs ih =>
    intro b h
    by_cases hc : isPySpace c = true
    · cases cs with
      | nil => simp [noTrailSpace, hc] at h
      | cons c2 cs2 =>
        have h2 : noTrailSpace (c2 :: cs2) = true := by
          rwa [noTrail_cons c (c2 :: cs2) (by simp)] at h
        have iht := ih true h2
        have hne : collapseAux true (c2 :: cs2) ≠ [] := iht.2 (by simp)
        cases b with
        | true =>
          rw [collapseAux_cons_space_true c (c2 :: cs2) hc]
          exact ⟨iht.1, fun _ => hne⟩
        | false =>
          rw [collapseAux_cons_space_false c (c2 :: cs2) hc]
          refine ⟨?_, fun _ => by simp⟩
          rw [noTrail_cons ' ' (collapseAux true (c2 :: cs2)) hne]
          exact iht.1
    · have hc' : isPySpace c = false := by simpa using hc
      cases cs with
      | nil =>
        rw [collapseAux_cons_nonspace b c [] hc']
        refine ⟨?_, fun _ => by simp⟩
        show noTrailSpace [c] = true
        exact h
      | cons c2 cs2 =>
        have h2 : noTrailSpace (c2 :: cs2) = true := by
          rwa [noTrail_cons c (c2 :: cs2) (by simp)] at h
        have iht := ih false h2
        have hne : collapseAux false (c2 :: cs2) ≠ [] := iht.2 (by simp)
        rw [collapseAux_cons_nonspace b c (c2 :: cs2) hc']
        refine ⟨?_, fun _ => by simp⟩
        rw [noTrail_cons c (collapseAux false (c2 :: cs2)) hne]
        exact iht.1

theorem mem_collapseAux (c : Char) (l : List Char) :
    ∀ b, c ∈ collapseAux b l → c = ' ' ∨ (c ∈ l ∧ isPySpace c = false) := by
  induction l with
  | nil => intro b h; simp [collapseAux] at h
  | cons d ds ih =>
    intro b h
    by_cases hd : isPySpace d = true
    · cases b with
      | true =>
        rw [collapseAux_cons_space_true d ds hd] at h
        rcases ih true h with h1 | ⟨h1, h1'⟩
        · exact Or.inl h1
        · exact Or.inr ⟨List.mem_cons_of_mem d h1, h1'⟩
      | false =>
        rw [collapseAux_cons_space_false d ds hd, List.mem_cons] at h
        rcases h with h1 | h1
        · exact Or.inl h1
        · rcases ih true h1 with h2 | ⟨h2, h2'⟩
          · exact Or.inl h2
          · exact Or.inr ⟨List.mem_cons_of_mem d h2, h2'⟩
    · have hd' : isPySpace d = false := by simpa using hd
      rw [collapseAux_cons_nonspace b d ds hd', List.mem_cons] at h
      rcases h with h1 | h1
      · exact Or.inr ⟨h1 ▸ List.mem_cons_self d ds, h1 ▸ hd'⟩
      · rcases ih false h1 with h2 | ⟨h2, h2'⟩
        · exact Or.inl h2
        · exact Or.inr ⟨List.mem_cons_of_mem d h2, h2'⟩

theorem mem_pyStrip (c : Char) (l : List Char) (h : c ∈ pyStrip l) : c ∈ l := by
  unfold pyStrip at h
  rw [List.mem_reverse] at h
  have h1 : c ∈ (l.dropWhile isPySpace).reverse :=
    List.Sublist.mem h (List.dropWhile_sublist isPySpace)
  rw [List.mem_reverse] at h1
  exact List.Sublist.mem h1 (List.dropWhile_sublist isPySpace)

theorem toLower_idem (c : Char) :
    Char.toLower (Char.toLower c) = Char.toLower c := by
  simp only [Char.toLower]
  split
  · next h =>
    have hv : (c.toNat + 32).isValidChar := Or.inl (by omega)
    have ht : (Char.ofNat (c.toNat + 32)).toNat = c.toNat + 32 := by
      simp only [Char.ofNat, hv, reduceDIte]
      rfl
    rw [if_neg (by omega)]
  · rfl

theorem isPySpace_toNat_lt (c : Char) (h : isPySpace c = true) : c.toNat < 64 := by
  simp only [isPySpace, Bool.or_eq_true, decide_eq_true_eq] at h
  rcases h with ((((h | h) | h) | h) | h) | h <;> (subst h; decide)

theorem toLower_not_space (a : Char) (ha : isPySpace a = false) :
    isPySpace (Char.toLower a) = false := by
  simp only [Char.toLower]
  split
  · next h =>
    have hv : (a.toNat + 32).isValidChar := Or.inl (by omega)
    have ht : (Char.ofNat (a.toNat + 32)).toNat = a.toNat + 32 := by
      simp only [Char.ofNat, hv, reduceDIte]
      rfl
    by_contra hsp
    rw [Bool.not_eq_false] at hsp
    have := isPySpace_toNat_lt _ hsp
    omega
  · exact ha

/-! ### Character classes of `clean_name` output -/

theorem clean_allKept (s : String) : ∀ c ∈ (cleanName s).data, keepChar c = true := by
  intro c hc
  have h : c ∈ List.filter keepChar (lowerChars (collapseWs (pyStrip s.data))) := hc
  exact (List.mem_filter.mp h).2

theorem clean_mem_lower (s : String) (c : Char) (hc : c ∈ (cleanName s).data) :
    c ∈ lowerChars (collapseWs (pyStrip s.data)) := by
  have h : c ∈ List.filter keepChar (lowerChars (collapseWs (pyStrip s.data))) := hc
  exact (List.mem_filter.mp h).1

theorem clean_allLower (s : String) : ∀ c ∈ (cleanName s).data, Char.toLower c = c := by
  intro c hc
  rcases List.mem_map.mp (clean_mem_lower s c hc) with ⟨a, _, ha⟩
  rw [← ha]
  exact toLower_idem a

/-- On a string whose characters are all kept and lower-case fixed points,
`clean_name` only strips and collapses whitespace. -/
theorem cleanName_eq_collapse_strip (s : String)
    (hk : ∀ c ∈ s.data, keepChar c = true)
    (hl : ∀ c ∈ s.data, Char.toLower c = c) :
    cleanName s = String.mk (collapseWs (pyStrip s.data)) := by
  unfold cleanName
  have hmem : ∀ c ∈ collapseWs (pyStrip s.data),
      keepChar c = true ∧ Char.toLower c = c := by
    intro c hc
    rcases mem_collapseAux c (pyStrip s.data) false hc with h | ⟨h, _⟩
    · subst h; exact ⟨by decide, by decide⟩
    · have hmem2 := mem_pyStrip c s.data h
      exact ⟨hk c hmem2, hl c hmem2⟩
  have hlow : lowerChars (collapseWs (pyStrip s.data)) = collapseWs (pyStrip s.data) := by
    unfold lowerChars
    rw [List.map_congr_left (fun a ha => (hmem a ha).2)]
    simp
  rw [hlow]
  unfold removeSpecial
  rw [List.filter_eq_self.mpr (fun a ha => (hmem a ha).1)]

theorem stripCollapse_stable (l : List Char) :
    pyStrip (collapseWs (pyStrip l)) = collapseWs (pyStrip l) :=
  pyStrip_eq_self _ (collapse_noLead _ (pyStrip_noLead l))
    ((collapse_noTrail (pyStrip l) false (pyStrip_noTrail l)).1)

/-- `clean_name` is a fixed point of itself on any output of `clean_name`. -/
theorem cleanName_fix_of_good (y : String)
    (hk : ∀ c ∈ y.data, keepChar c = true)
    (hl : ∀ c ∈ y.data, Char.toLower c = c) :
    cleanName (cleanName y) = cleanName y := by
  have hz : cleanName y = String.mk (collapseWs (pyStrip y.data)) :=
    cleanName_eq_collapse_strip y hk hl
  have h2 : cleanName (cleanName y) =
      String.mk (collapseWs (pyStrip (cleanName y).data)) :=
    cleanName_eq_collapse_strip (cleanName y) (clean_allKept y) (clean_allLower y)
  rw [h2, hz]
  show String.mk (collapseWs (pyStrip (collapseWs (pyStrip y.data)))) =
    String.mk (collapseWs (pyStrip y.data))
  rw [stripCollapse_stable y.data]
  show String.mk (collapseAux false (collapseAux false (pyStrip y.data))) = _
  rw [collapseAux_idem (pyStrip y.data) false]
  rfl

/-- **C1** (counterexample): `clean_name` is *not* idempotent as claimed.
At the concrete input `"a ."`, `clean_name` returns `"a "` (removing the
dot re-exposes a trailing space that was stripped before the removal
step), and a second application returns `"a"`. -/
theorem c1_counterexample : cleanName (cleanName "a .") ≠ cleanName "a ." := by
  decide

/-- **C1** (amended): `clean_name` is idempotent from the second
application onwards: `clean_name (clean_name (clean_name x)) =
clean_name (clean_name x)` for every string `x`. A single application
need not be idempotent because the final character-removal step can
re-expose leading/trailing whitespace or doubled spaces. -/
theorem c1_theorem (x : String) :
    cleanName (cleanName (cleanName x)) = cleanName (cleanName x) :=
  cleanName_fix_of_good (cleanName x) (clean_allKept x) (clean_allLower x)

/-- **C5** (counterexample): the output of `clean_name` is *not* limited
to letters, digits, whitespace and hyphens: `clean_name "_" = "_"`, and
the underscore (kept by the regex class `\w`) is none of those. -/
theorem c5_counterexample :
    ¬ (∀ c ∈ (cleanName "_").data,
        (c.isAlpha = true ∨ c.isDigit = true ∨ isPySpace c = true ∨ c = '-')) := by
  decide

/-- **C5** (amended): `clean_name` maps empty or missing input to the
empty string; it trims, collapses whitespace, lower-cases and then
removes every character that is not a *word* character (letter, digit,
or underscore), whitespace, or a hyphen — so every character of the
output is a word character, the single space `' '`, or `'-'`, and is a
fixed point of lower-casing. -/
theorem c5_theorem :
    cleanNameOpt none = "" ∧ cleanName "" = "" ∧
      ∀ (s : String), ∀ c ∈ (cleanName s).data,
        ((isWordChar c = true ∨ c = ' ' ∨ c = '-') ∧ Char.toLower c = c) := by
  refine ⟨rfl, by decide, ?_⟩
  intro s c hc
  refine ⟨?_, clean_allLower s c hc⟩
  have hk := clean_allKept s c hc
  rcases List.mem_map.mp (clean_mem_lower s c hc) with ⟨a, ha, hla⟩
  simp only [keepChar, Bool.or_eq_true, decide_eq_true_eq] at hk
  rcases hk with (hw | hsp) | hh
  · exact Or.inl hw
  · rcases mem_collapseAux a (pyStrip s.data) false ha with h' | ⟨_, hans⟩
    · subst h'
      refine Or.inr (Or.inl ?_)
      rw [← hla]
      decide
    · exfalso
      have hns := toLower_not_space a hans
      rw [hla] at hns
      rw [hns] at hsp
      exact Bool.false_ne_true hsp
  · exact Or.inr (Or.inr hh)

/-- **C5** (witness): the amended character-class property evaluated at
the concrete input `"A b"`, whose normal form `"a b"` contains `'a'`. -/
theorem c5_witness :
    (isWordChar 'a' = true ∨ 'a' = ' ' ∨ 'a' = '-') ∧ Char.toLower 'a' = 'a' :=
  c5_theorem.2.2 "A b" 'a' (by decide)

/-! ## Data model: rows, cells, tables -/

/-- A DataFrame cell. Original data cells are strings; the engine writes
the numeric `round(confidence, 3)` into the `Confidence` tracking field. -/
inductive Cell where
  | str (s : String)
  | num (q : ℚ)
deriving DecidableEq

/-- A DataFrame row: an ordered association list of column name to cell. -/
abbrev Row := List (String × Cell)

/-- Reading a cell of a row (pandas `row[col]` / `Series.get`): the first
pair with the given column name. -/
def getCell : Row → String → Option Cell
  | [], _ => none
  | p :: ps, c => if p.1 = c then some p.2 else getCell ps c

/-- Whether a column is present in a row (`col in df.columns`). -/
def hasCol (r : Row) (c : String) : Bool :=
  (getCell r c).isSome

/-- The string reading of a cell; a missing cell (`NaN`) reads as `""`
(this is what both `clean_name` and `Series.get(col, "")` make of it). -/
def Cell.toStr : Cell → String
  | .str s => s
  | .num q => toString q

/-- `str(row[col])` with missing values read as `""`. -/
def cellStr (r : Row) (c : String) : String :=
  match getCell r c with
  | none => ""
  | some cell => cell.toStr

/-- Overwrite the cell of an existing column (`df.at[idx, col] = v`); rows
are never extended by the engine's per-row writes (all written columns
exist beforehand). -/
def rowSet : Row → String → Cell → Row
  | [], _, _ => []
  | p :: ps, c, v => (if p.1 = c then (p.1, v) else p) :: rowSet ps c v

/-- Column assignment `df[col] = v` at row level: overwrite if the column
exists, else append it as a new last column. -/
def setCellForce (r : Row) (c : String) (v : Cell) : Row :=
  bif hasCol r c then rowSet r c v else r ++ [(c, v)]

theorem getCell_rowSet_self (r : Row) (c : String) (v : Cell) :
    getCell (rowSet r c v) c = (getCell r c).map (fun _ => v) := by
  induction r with
  | nil => rfl
  | cons p ps ih =>
    by_cases h : p.1 = c
    · simp [rowSet, getCell, h]
    · simp [rowSet, getCell, h, ih]

theorem rowSet_cons (p : String × Cell) (ps : Row) (c : String) (v : Cell) :
    rowSet (p :: ps) c v = (if p.1 = c then (p.1, v) else p) :: rowSet ps c v := rfl

theorem getCell_cons (q : String × Cell) (qs : Row) (c : String) :
    getCell (q :: qs) c = if q.1 = c then some q.2 else getCell qs c := rfl

theorem getCell_rowSet_ne (r : Row) (c c' : String) (v : Cell) (h : c' ≠ c) :
    getCell (rowSet r c v) c' = getCell r c' := by
  induction r with
  | nil => rfl
  | cons p ps ih =>
    rw [rowSet_cons, getCell_cons, getCell_cons p ps]
    by_cases hp : p.1 = c
    · have hne : ¬ p.1 = c' := by
        rw [hp]; exact fun hh => h hh.symm
      rw [if_pos hp]
      show (if p.1 = c' then some v else getCell (rowSet ps c v) c') = _
      rw [if_neg hne, if_neg hne, ih]
    · rw [if_neg hp]
      by_cases hp' : p.1 = c'
      · rw [if_pos hp', if_pos hp']
      · rw [if_neg hp', if_neg hp', ih]

theorem hasCol_rowSet (r : Row) (c c' : String) (v : Cell) :
    hasCol (rowSet r c v) c' = hasCol r c' := by
  by_cases h : c' = c
  · subst h
    unfold hasCol
    rw [getCell_rowSet_self]
    cases getCell r c' <;> rfl
  · unfold hasCol
    rw [getCell_rowSet_ne r c c' v h]

theorem getCell_append (r s : Row) (c : String) :
    getCell (r ++ s) c = (getCell r c).or (getCell s c) := by
  induction r with
  | nil => rfl
  | cons p ps ih =>
    by_cases h : p.1 = c
    · simp [getCell, h]
    · simp [getCell, h, ih]

theorem getCell_force_self (r : Row) (c : String) (v : Cell) :
    getCell (setCellForce r c v) c = some v := by
  unfold setCellForce
  by_cases h : hasCol r c = true
  · rw [h, Bool.cond_true, getCell_rowSet_self]
    unfold hasCol at h
    cases hg : getCell r c with
    | none => rw [hg] at h; simp at h
    | some x => rfl
  · rw [Bool.not_eq_true] at h
    rw [h, Bool.cond_false, getCell_append]
    unfold hasCol at h
    cases hg : getCell r c with
    | some x => rw [hg] at h; simp at h
    | none => simp [getCell]

theorem getCell_force_ne (r : Row) (c c' : String) (v : Cell) (h : c' ≠ c) :
    getCell (setCellForce r c v) c' = getCell r c' := by
  unfold setCellForce
  by_cases hc : hasCol r c = true
  · rw [hc, Bool.cond_true, getCell_rowSet_ne r c c' v h]
  · rw [Bool.not_eq_true] at hc
    rw [hc, Bool.cond_false, getCell_append]
    have hne : ¬ c = c' := fun hh => h hh.symm
    have hnone : getCell [(c, v)] c' = none := by
      simp [getCell, hne]
    rw [hnone]
    cases getCell r c' <;> rfl

theorem hasCol_force (r : Row) (c c' : String) (v : Cell) (h : hasCol r c' = true) :
    hasCol (setCellForce r c v) c' = true := by
  by_cases hcc : c' = c
  · subst hcc
    unfold hasCol
    rw [getCell_force_self]
    rfl
  · unfold hasCol
    rw [getCell_force_ne r c c' v hcc]
    exact h

/-! ## Configuration and match results -/

/-- The resolved match type of a row or column
(`'EXACT'` / `'FUZZY'` / `'REVIEW'` strings in the code). -/
inductive MatchType where
  | EXACT
  | FUZZY
  | REVIEW
deriving DecidableEq

def MatchType.toStr : MatchType → String
  | .EXACT => "EXACT"
  | .FUZZY => "FUZZY"
  | .REVIEW => "REVIEW"

/-- One `matches_found[i]` dictionary without its `'column'` key:
type, matched reference name, confidence, and the data-source value. -/
structure MatchInfo where
  type : MatchType
  matchedName : String
  confidence : ℚ
  dataValue : String
deriving DecidableEq

/-- The run configuration (GUI selections read at the top of
`process_data`). `ratio` abstracts `difflib.SequenceMatcher.ratio`,
the similarity score used by the fuzzy step. -/
structure Config where
  referencePrimary : String
  dataSource : String
  targetColumns : List String
  replaceColumns : List String
  preserveStructure : Bool
  fuzzyMatching : Bool
  similarityThreshold : ℚ
  enableMultivalue : Bool
  ratio : String → String → ℚ

/-- The normalized key of a reference row: the `clean_reference` column,
`clean_name` applied to the reference primary cell. -/
def cleanRef (cfg : Config) (r : Row) : String :=
  cleanName (cellStr r cfg.referencePrimary)

/-- Python `round(x, 3)` (round half to even), on `ℚ`. -/
def roundHalfEven (q : ℚ) : ℤ :=
  let n := ⌊q⌋
  let r := q - n
  if r < 1 / 2 then n
  else if 1 / 2 < r then n + 1
  else if n % 2 = 0 then n else n + 1

def round3 (q : ℚ) : ℚ :=
  (roundHalfEven (q * 1000) : ℚ) / 1000

/-! ## First-maximum selection

Both `max(matches_found.values(), key=...)` (Python `max` keeps the first
maximal element) and `difflib.get_close_matches(..., n=1)` (stable sort
by score, descending) return the first element attaining the maximal
score. They are modelled by a left fold that replaces the accumulator
only on a strictly larger score, and proved equal to the specification
reading "first element whose score no other element exceeds". -/

def pickStep {α : Type} (k : α → ℚ) (acc : Option α) (x : α) : Option α :=
  match acc with
  | none => some x
  | some a => if k a < k x then some x else acc

def pickFirstMax {α : Type} (k : α → ℚ) (l : List α) : Option α :=
  l.foldl (pickStep k) none

/-- The specification's reading: the first element of the list whose
score is greater than or equal to every element's score. -/
def findFirstMax {α : Type} (k : α → ℚ) (l : List α) : Option α :=
  l.find? (fun x => l.all (fun y => decide (k y ≤ k x)))

theorem pickFold_of_max {α : Type} (k : α → ℚ) (a : α) (l : List α)
    (h : ∀ y ∈ l, k y ≤ k a) : l.foldl (pickStep k) (some a) = some a := by
  induction l generalizing a with
  | nil => rfl
  | cons x xs ih =>
    have hx : ¬ k a < k x := not_lt.mpr (h x (List.mem_cons_self x xs))
    simp only [List.foldl_cons, pickStep, hx, if_neg, if_false]
    exact ih a (fun y hy => h y (List.mem_cons_of_mem x hy))

theorem pickFold_reach {α : Type} (k : α → ℚ) (a x : α) (pre post : List α)
    (hpre : ∀ y ∈ pre, k y < k x) (hpost : ∀ y ∈ post, k y ≤ k x)
    (ha : k a < k x) :
    (pre ++ x :: post).foldl (pickStep k) (some a) = some x := by
  induction pre generalizing a with
  | nil =>
    simp only [List.nil_append, List.foldl_cons, pickStep, ha, if_pos]
    exact pickFold_of_max k x post hpost
  | cons p pre' ih =>
    have hp : k p < k x := hpre p (List.mem_cons_self p pre')
    have hpre' : ∀ y ∈ pre', k y < k x :=
      fun y hy => hpre y (List.mem_cons_of_mem p hy)
    simp only [List.cons_append, List.foldl_cons, pickStep]
    by_cases hap : k a < k p
    · rw [if_pos hap]; exact ih p hpre' hp
    · rw [if_neg hap]; exact ih a hpre' ha

theorem pickFirstMax_decomp {α : Type} (k : α → ℚ) (x : α) (pre post : List α)
    (hpre : ∀ y ∈ pre, k y < k x) (hpost : ∀ y ∈ post, k y ≤ k x) :
    pickFirstMax k (pre ++ x :: post) = some x := by
  unfold pickFirstMax
  cases pre with
  | nil =>
    simp only [List.nil_append, List.foldl_cons, pickStep]
    exact pickFold_of_max k x post hpost
  | cons p pre' =>
    simp only [List.cons_append, List.foldl_cons, pickStep]
    have hp : k p < k x := hpre p (List.mem_cons_self p pre')
    exact pickFold_reach k p x pre' post
      (fun y hy => hpre y (List.mem_cons_of_mem p hy)) hpost hp

/-- Every nonempty list decomposes around its first maximal element. -/
theorem exists_firstMax {α : Type} (k : α → ℚ) (l : List α) (h : l ≠ []) :
    ∃ pre x post, l = pre ++ x :: post ∧ (∀ y ∈ pre, k y < k x) ∧
      (∀ y ∈ l, k y ≤ k x) := by
  induction l with
  | nil => exact absurd rfl h
  | cons a l' ih =>
    cases l' with
    | nil =>
      refine ⟨[], a, [], rfl, by simp, ?_⟩
      intro y hy
      rcases List.mem_singleton.mp hy with rfl
      exact le_refl _
    | cons b l'' =>
      rcases ih (List.cons_ne_nil b l'') with ⟨pre, x, post, hdec, hpre, hall⟩
      by_cases hax : k x ≤ k a
      · refine ⟨[], a, b :: l'', rfl, by simp, ?_⟩
        intro y hy
        rcases List.mem_cons.mp hy with rfl | hy'
        · exact le_refl _
        · rw [hdec] at hy'
          exact le_trans (hall y (hdec ▸ hy')) hax
      · refine ⟨a :: pre, x, post, by rw [hdec, List.cons_append], ?_, ?_⟩
        · intro y hy
          rcases List.mem_cons.mp hy with rfl | hy'
          · exact not_le.mp hax
          · exact hpre y hy'
        · intro y hy
          rcases List.mem_cons.mp hy with rfl | hy'
          · exact le_of_lt (not_le.mp hax)
          · exact hall y hy'

theorem findFirstMax_decomp {α : Type} (k : α → ℚ) (x : α) (pre post : List α)
    (hpre : ∀ y ∈ pre, k y < k x)
    (hall : ∀ y ∈ pre ++ x :: post, k y ≤ k x) :
    findFirstMax k (pre ++ x :: post) = some x := by
  unfold findFirstMax
  rw [List.find?_append]
  have hxmem : x ∈ pre ++ x :: post := List.mem_append_right pre (List.mem_cons_self x post)
  have hprenone :
      List.find? (fun y => (pre ++ x :: post).all (fun z => decide (k z ≤ k y))) pre = none := by
    rw [List.find?_eq_none]
    intro y hy hally
    rw [List.all_eq_true] at hally
    have := hally x hxmem
    rw [decide_eq_true_eq] at this
    exact absurd this (not_le.mpr (hpre y hy))
  rw [hprenone]
  simp only [Option.none_or]
  apply List.find?_cons_of_pos
  rw [List.all_eq_true]
  intro z hz
  rw [decide_eq_true_eq]
  exact hall z hz

/-- The fold used by the code (Python `max`, first maximum kept) computes
exactly the specification's "first element of maximal score". -/
theorem pickFirstMax_eq_findFirstMax {α : Type} (k : α → ℚ) (l : List α) :
    pickFirstMax k l = findFirstMax k l := by
  cases hl : l.isEmpty with
  | true =>
    rw [List.isEmpty_iff] at hl
    subst hl; rfl
  | false =>
    have hne : l ≠ [] := by
      intro h; rw [h] at hl; simp at hl
    rcases exists_firstMax k l hne with ⟨pre, x, post, hdec, hpre, hall⟩
    rw [hdec, pickFirstMax_decomp k x pre post hpre
      (fun y hy => hall y (hdec ▸ List.mem_append_right pre (List.mem_cons_of_mem x hy))),
      findFirstMax_decomp k x pre post hpre (hdec ▸ hall)]

theorem pickFirstMax_ne_none {α : Type} (k : α → ℚ) (l : List α) (h : l ≠ []) :
    pickFirstMax k l ≠ none := by
  rcases exists_firstMax k l h with ⟨pre, x, post, hdec, hpre, hall⟩
  rw [hdec, pickFirstMax_decomp k x pre post hpre
    (fun y hy => hall y (hdec ▸ List.mem_append_right pre (List.mem_cons_of_mem x hy)))]
  exact Option.some_ne_none x

/-! ## Matcher: `find_match_for_value` (app.py 2134-2177)

The single-value matching logic inlined in `process_data`
(app.py 1888-1930) is the `exact_only=False, fuzzy_only=False` instance
of the same code. -/

/-- `difflib.get_close_matches(key, names, n=1, cutoff)`: the first
name of maximal score among those scoring at least the cutoff
(`heapq.nlargest` is a stable descending sort, so the earliest name wins
ties). -/
def bestCloseMatch (ratio : String → String → ℚ) (key : String)
    (names : List String) (cutoff : ℚ) : Option String :=
  pickFirstMax (fun n => ratio key n)
    (names.filter (fun n => decide (cutoff ≤ ratio key n)))

/-- `find_match_for_value(target_value, master_work, reference_primary,
data_source, exact_only, fuzzy_only)`. -/
def findMatchForValue (cfg : Config) (master : List Row) (v : String)
    (exactOnly fuzzyOnly : Bool) : Option MatchInfo :=
  let key := cleanName v
  if key = "" then none
  else
    let exactRes : Option MatchInfo :=
      bif fuzzyOnly then none
      else
        (master.find? (fun r => cleanRef cfg r == key)).map (fun r =>
          { type := .EXACT, matchedName := cellStr r cfg.referencePrimary,
            confidence := 1, dataValue := cellStr r cfg.dataSource })
    match exactRes with
    | some m => some m
    | none =>
      bif exactOnly then none
      else bif cfg.fuzzyMatching then
        let names := master.map (cleanRef cfg)
        bif names.isEmpty then none
        else
          match bestCloseMatch cfg.ratio key names cfg.similarityThreshold with
          | none => none
          | some mname =>
            match master.find? (fun r => cleanRef cfg r == mname) with
            | none => none
            | some r =>
              some
                { type := .FUZZY,
                  matchedName := cellStr r cfg.referencePrimary,
                  confidence := cfg.ratio key mname,
                  dataValue := cellStr r cfg.dataSource }
      else none

/-! ## ValueSplitter (app.py 1836-1851) -/

/-- The hard-coded delimiter priority list `delimiters_to_check`. -/
def delimitersToCheck : List Char := [',', ';', '|']

/-- `for delim in delimiters_to_check: if delim in target_str: ... break`. -/
def detectDelimiter (s : String) : Option Char :=
  delimitersToCheck.find? (fun d => s.data.contains d)

/-- Python `str.split(d)` on character lists. -/
def splitOnChar (d : Char) : List Char → List (List Char)
  | [] => [[]]
  | c :: cs =>
    if c = d then [] :: splitOnChar d cs
    else
      match splitOnChar d cs with
      | [] => [[c]]
      | p :: ps => (c :: p) :: ps

/-- `[val.strip() for val in target_str.split(delim) if val.strip()]`. -/
def splitParts (s : String) (d : Char) : List String :=
  ((splitOnChar d s.data).map (fun l => String.mk (pyStrip l))).filter
    (fun x => x ≠ "")

/-- Python `d.join(xs)`. -/
def joinWith (d : Char) : List String → String
  | [] => ""
  | [s] => s
  | s :: rest => s ++ String.mk [d] ++ joinWith d rest

/-! ## ColumnReconciler: one target column of one row
(app.py 1828-1930) -/

/-- The single-value branch: the inline exact/fuzzy logic of
`process_data` (identical to `find_match_for_value` with both flags
off). -/
def singleValueResult (cfg : Config) (master : List Row) (v : String) :
    Option MatchInfo :=
  findMatchForValue cfg master v false false

/-- Per-sub-value replacement value: the matched `data_value`, or the
sentinel `"match unfound"`. -/
def subResultValue (cfg : Config) (master : List Row) (p : String) : String :=
  match findMatchForValue cfg master p false false with
  | some m => m.dataValue
  | none => "match unfound"

/-- Per-sub-value match type (`'EXACT'`/`'FUZZY'` strings in
`match_types`; an unmatched sub-value appends `'NONE'`, modelled as
`none`). -/
def subResultType (cfg : Config) (master : List Row) (p : String) :
    Option MatchType :=
  (findMatchForValue cfg master p false false).map (fun m => m.type)

/-- The aggregate `matches_found[i]` entry built in the multi-value
branch (app.py 1853-1885). -/
def multiValueInfo (cfg : Config) (master : List Row) (d : Char)
    (parts : List String) : MatchInfo :=
  let results := parts.map (subResultValue cfg master)
  let types := parts.map (subResultType cfg master)
  let hasExact := types.contains (some .EXACT)
  let hasFuzzy := types.contains (some .FUZZY)
  let matchCount := (results.filter (fun r => r ≠ "match unfound")).length
  { type := bif hasExact then .EXACT else bif hasFuzzy then .FUZZY else .REVIEW
    matchedName := "Multi-value: " ++ toString matchCount ++ "/" ++
      toString parts.length ++ " matched"
    confidence := bif hasExact then 1 else bif hasFuzzy then (8 : ℚ) / 10 else 0
    dataValue := joinWith d results }

/-- What one target column contributes to `matches_found` for one row:
skip blank/missing values; in multi-value mode split on the first
detected delimiter when that yields at least two non-empty parts;
otherwise run the single-value logic. -/
def columnResult (cfg : Config) (master : List Row) (row : Row)
    (col : String) : Option MatchInfo :=
  let v := cellStr row col
  if pyStripStr v = "" then none
  else
    bif cfg.enableMultivalue then
      match detectDelimiter v with
      | some d =>
        let parts := splitParts v d
        if 1 < parts.length then some (multiValueInfo cfg master d parts)
        else singleValueResult cfg master v
      | none => singleValueResult cfg master v
    else singleValueResult cfg master v

/-! ## RowReconciler (app.py 1823-1956) -/

/-- The names of the four engine-written tracking columns. -/
def trackingNames : List String :=
  ["Match_Type", "Matched_Reference_Name", "Confidence", "Matched_Column"]

/-- Adding the tracking columns before the row loop
(`self.secondary_work['Match_Type'] = ""` and the three others). -/
def addTracking (r : Row) : Row :=
  setCellForce (setCellForce (setCellForce (setCellForce r
    "Match_Type" (.str "")) "Matched_Reference_Name" (.str ""))
    "Confidence" (.str "")) "Matched_Column" (.str "")

/-- The score by which the row-level best match is chosen:
`key=lambda x: x['confidence']`. -/
def matchEntryKey (e : ℕ × String × MatchInfo) : ℚ := e.2.2.confidence

/-- `matches_found` accumulated over `enumerate(self.selected_target_columns)`:
entries `(i, target_col, info)` in increasing column order. -/
def collectMatches (cfg : Config) (master : List Row) (row : Row) :
    ℕ → List String → List (ℕ × String × MatchInfo)
  | _, [] => []
  | i, col :: cols =>
    match columnResult cfg master row col with
    | some m => (i, col, m) :: collectMatches cfg master row (i + 1) cols
    | none => collectMatches cfg master row (i + 1) cols

def matchesFound (cfg : Config) (master : List Row) (row : Row) :
    List (ℕ × String × MatchInfo) :=
  collectMatches cfg master row 0 cfg.targetColumns

/-- One replace-column write (app.py 1936-1939): for a `matches_found`
entry at target position `i`, if a replace column is configured at
position `i` (`target_idx < len(self.selected_replace_columns)`) and
that column exists in the table, overwrite its cell with the entry's
`data_value`. -/
def stepWrite (cfg : Config) (row : Row) (e : ℕ × String × MatchInfo) : Row :=
  if e.1 < cfg.replaceColumns.length then
    let rc := cfg.replaceColumns.getD e.1 ""
    bif hasCol row rc then rowSet row rc (.str e.2.2.dataValue) else row
  else row

/-- The replace-column write loop (app.py 1933-1939), over the
`matches_found` entries in insertion order. -/
def applyReplaceWrites (cfg : Config) (ms : List (ℕ × String × MatchInfo))
    (r : Row) : Row :=
  ms.foldl (stepWrite cfg) r

/-- One iteration of the row loop: column matches, replace-column
writes, then the tracking fields from the best match (`max` by
confidence, Python `max` keeps the first maximal element); rows with no
match get `Match_Type = "REVIEW"`. Also returns the resolved best type
used by the statistics counters. -/
def processRow (cfg : Config) (master : List Row) (r : Row) :
    Row × Option MatchType :=
  let ms := matchesFound cfg master r
  match pickFirstMax matchEntryKey ms with
  | some e =>
    let r1 := applyReplaceWrites cfg ms r
    let r2 := rowSet (rowSet (rowSet (rowSet r1
      "Match_Type" (.str e.2.2.type.toStr))
      "Matched_Reference_Name" (.str e.2.2.matchedName))
      "Confidence" (.num (round3 e.2.2.confidence)))
      "Matched_Column" (.str e.2.1)
    (r2, some e.2.2.type)
  | none => (rowSet r "Match_Type" (.str "REVIEW"), none)

/-! ## ReconciliationRun: `process_data` (app.py 1764-1980) -/

/-- Run statistics; the three percentages are only computed when
`total_records > 0` (the logging lines guard on it). -/
structure RunStats where
  exactMatches : ℕ
  fuzzyMatches : ℕ
  noMatches : ℕ
  totalRecords : ℕ
  percentages : Option (ℚ × ℚ × ℚ)
deriving DecidableEq

/-- The row loop with the statistics counters: `exact_matches += 1` when
the best match's type is `"EXACT"`, otherwise `fuzzy_matches += 1`; rows
with no match at all count into `no_matches`. -/
def runRows (cfg : Config) (master : List Row) :
    List Row → List Row × ℕ × ℕ × ℕ
  | [] => ([], 0, 0, 0)
  | r :: rs =>
    let pr := processRow cfg master r
    let rest := runRows cfg master rs
    match pr.2 with
    | some .EXACT => (pr.1 :: rest.1, rest.2.1 + 1, rest.2.2.1, rest.2.2.2)
    | some _ => (pr.1 :: rest.1, rest.2.1, rest.2.2.1 + 1, rest.2.2.2)
    | none => (pr.1 :: rest.1, rest.2.1, rest.2.2.1, rest.2.2.2 + 1)

def mkStats (e f n total : ℕ) : RunStats :=
  { exactMatches := e, fuzzyMatches := f, noMatches := n,
    totalRecords := total,
    percentages :=
      if 0 < total then
        some ((e : ℚ) * 100 / (total : ℚ), (f : ℚ) * 100 / (total : ℚ),
          (n : ℚ) * 100 / (total : ℚ))
      else none }

/-- `process_data`: the four configuration checks (app.py 1770-1786) in
order, then — in structure-preserving mode — tracking columns and the
row loop; otherwise the table is left as is. Errors are the
`ValueError` messages raised before any row is touched. -/
def processData (cfg : Config) (master tgt : List Row) :
    Except String (List Row × RunStats) :=
  if cfg.referencePrimary = "" then
    .error "Please select a reference primary match column"
  else if cfg.targetColumns = [] then
    .error "Please select at least one target column for comparison"
  else if cfg.preserveStructure = true ∧ cfg.replaceColumns = [] then
    .error "Please select columns to replace when preserve structure is enabled"
  else if cfg.dataSource = "" then
    .error "Please select a data source column"
  else
    bif cfg.preserveStructure then
      let res := runRows cfg master (tgt.map addTracking)
      .ok (res.1, mkStats res.2.1 res.2.2.1 res.2.2.2 res.1.length)
    else
      .ok (tgt, mkStats 0 0 0 tgt.length)

/-! ## Whole-column replace / undo facility (app.py 885-913) -/

/-- Reading a whole column (`df[col]`); `none` models the `KeyError` on
a missing column. -/
def getColumnCells (t : List Row) (c : String) : Option (List Cell) :=
  if t.all (fun r => hasCol r c) then
    some (t.map (fun r => (getCell r c).getD (.str "")))
  else none

/-- Writing a whole column back (`df[name] = series`, index-aligned). -/
def setColumnCells (t : List Row) (c : String) (cells : List Cell) :
    List Row :=
  (t.zip cells).map (fun rv => rowSet rv.1 c rv.2)

/-- The state of the replace/undo facility: the processed target table
plus the single undo snapshot `_undo_col_data` / `_undo_col_name`. -/
structure ReplaceState where
  table : List Row
  undoData : Option (List Cell)
  undoName : Option String

/-- `replace_entire_column`: snapshot the column, then overwrite every
row's cell with the literal value. Errors model the early-return warning
paths (empty column selection) and the uncaught `KeyError` on a column
that is not in the table; the state is unchanged in those cases. -/
def replaceEntireColumn (st : ReplaceState) (col val : String) :
    Except String ReplaceState :=
  if col = "" then .error "No Column Selected"
  else
    match getColumnCells st.table col with
    | none => .error "KeyError"
    | some snapshot =>
      .ok { table := st.table.map (fun r => rowSet r col (.str val)),
            undoData := some snapshot, undoName := some col }

/-- `undo_replace_column`: restore the snapshot into its column and
clear it; warn `"Nothing to Undo"` (state unchanged) when either
snapshot field is `None`. -/
def undoReplaceColumn (st : ReplaceState) : Except String ReplaceState :=
  match st.undoData, st.undoName with
  | some cells, some c =>
    .ok { table := setColumnCells st.table c cells,
          undoData := none, undoName := none }
  | _, _ => .error "Nothing to Undo"

/-! ## Claim C4: the exact-match step -/

theorem find_first_of_decomp {α : Type} (p : α → Bool) (x : α)
    (pre post : List α) (hpre : ∀ y ∈ pre, p y = false) (hx : p x = true) :
    List.find? p (pre ++ x :: post) = some x := by
  rw [List.find?_append]
  have h1 : List.find? p pre = none := by
    rw [List.find?_eq_none]
    intro y hy
    rw [hpre y hy]
    exact Bool.false_ne_true
  rw [h1, Option.none_or]
  exact List.find?_cons_of_pos post hx

/-- **C4**: for a nonempty normalized target key, the exact-match step of
`find_match_for_value` returns the first reference record in table order
whose normalized key (`clean_reference`) equals the target key, with
confidence 1.0 and type EXACT — in particular, when several reference
rows normalize to the same key, the earliest row always wins. -/
theorem c4_theorem (cfg : Config) (master : List Row) (v : String)
    (pre : List Row) (r : Row) (post : List Row)
    (hk : cleanName v ≠ "")
    (hm : master = pre ++ r :: post)
    (hpre : ∀ p ∈ pre, cleanRef cfg p ≠ cleanName v)
    (hr : cleanRef cfg r = cleanName v) :
    findMatchForValue cfg master v false false =
      some { type := .EXACT, matchedName := cellStr r cfg.referencePrimary,
             confidence := 1, dataValue := cellStr r cfg.dataSource } := by
  have hfind : master.find? (fun x => cleanRef cfg x == cleanName v) = some r := by
    rw [hm]
    apply find_first_of_decomp
    · intro y hy
      rw [beq_eq_false_iff_ne]
      exact hpre y hy
    · rw [beq_iff_eq]
      exact hr
  simp only [findMatchForValue, if_neg hk, Bool.cond_false, hfind, Option.map_some']

/-- Concrete configuration for the C4 witness: fuzzy matching off, two
reference rows whose names normalize to the same key. -/
def cfgC4 : Config :=
  { referencePrimary := "Name", dataSource := "ID",
    targetColumns := ["FullName"], replaceColumns := ["EmployeeID"],
    preserveStructure := true, fuzzyMatching := false,
    similarityThreshold := 8 / 10, enableMultivalue := false,
    ratio := fun _ _ => 0 }

def rowC4a : Row := [("Name", .str "John Smith"), ("ID", .str "001")]

def rowC4b : Row := [("Name", .str "john  SMITH"), ("ID", .str "002")]

/-- **C4** (witness): both reference rows normalize to `"john smith"`;
matching `"John   Smith"` returns the first row's record (`ID "001"`),
exactly, with confidence 1. -/
theorem c4_witness :
    findMatchForValue cfgC4 [rowC4a, rowC4b] "John   Smith" false false =
      some { type := .EXACT, matchedName := "John Smith",
             confidence := 1, dataValue := "001" } := by
  have h := c4_theorem cfgC4 [rowC4a, rowC4b] "John   Smith" [] rowC4a [rowC4b]
    (by decide) rfl (fun p hp => absurd hp (List.not_mem_nil p)) (by decide)
  rw [h]
  decide

/-! ## Claim C6: delimiter detection -/

/-- Modelled from the spec's words for C6 only (refinement comparison):
the *claimed* candidate delimiter set, which includes the space
character as a fourth candidate, scanned in the same priority order. -/
def specDetectDelimiter (s : String) : Option Char :=
  [',', ';', '|', ' '].find? (fun d => s.data.contains d)

/-- **C6** (counterexample): the code's candidate delimiters are only
comma, semicolon and pipe — space is *not* a candidate. On `"a b"` the
claimed detector (with space) finds `' '`, but the code finds nothing
and treats the field as single-valued. -/
theorem c6_counterexample :
    detectDelimiter "a b" = none ∧ specDetectDelimiter "a b" = some ' ' := by
  constructor
  · rfl
  · rfl

/-- **C6** (amended): delimiter detection scans the candidates comma,
semicolon, pipe (no space; the set is hard-coded) in priority order and
picks the first that occurs anywhere in the raw string; if none occurs,
or if splitting, trimming and dropping empty parts yields fewer than 2
parts, the field is processed as single-valued. -/
theorem c6_theorem (cfg : Config) (master : List Row) (row : Row)
    (col : String) :
    (∀ d, detectDelimiter (cellStr row col) = some d →
      ((d = ',' ∨ d = ';' ∨ d = '|') ∧
        (cellStr row col).data.contains d = true ∧
        (d = ';' → (cellStr row col).data.contains ',' = false) ∧
        (d = '|' → (cellStr row col).data.contains ',' = false ∧
          (cellStr row col).data.contains ';' = false)))
    ∧ (detectDelimiter (cellStr row col) = none →
        (cellStr row col).data.contains ',' = false ∧
        (cellStr row col).data.contains ';' = false ∧
        (cellStr row col).data.contains '|' = false)
    ∧ (detectDelimiter (cellStr row col) = none →
        columnResult cfg master row col =
          (if pyStripStr (cellStr row col) = "" then none
           else singleValueResult cfg master (cellStr row col)))
    ∧ (∀ d, detectDelimiter (cellStr row col) = some d →
        ¬ 1 < (splitParts (cellStr row col) d).length →
        columnResult cfg master row col =
          (if pyStripStr (cellStr row col) = "" then none
           else singleValueResult cfg master (cellStr row col))) := by
  refine ⟨?_, ?_, ?_, ?_⟩
  · intro d hd
    unfold detectDelimiter delimitersToCheck at hd
    by_cases h1 : (cellStr row col).data.contains ',' = true
    · rw [List.find?_cons_of_pos _ h1] at hd
      obtain rfl : ',' = d := by injection hd
      refine ⟨Or.inl rfl, h1, ?_, ?_⟩
      · intro h; exact absurd h (by decide)
      · intro h; exact absurd h (by decide)
    · rw [List.find?_cons_of_neg _ h1] at hd
      have h1' : (cellStr row col).data.contains ',' = false :=
        Bool.not_eq_true _ ▸ h1
      by_cases h2 : (cellStr row col).data.contains ';' = true
      · rw [List.find?_cons_of_pos _ h2] at hd
        obtain rfl : ';' = d := by injection hd
        refine ⟨Or.inr (Or.inl rfl), h2, fun _ => h1', ?_⟩
        intro h; exact absurd h (by decide)
      · rw [List.find?_cons_of_neg _ h2] at hd
        have h2' : (cellStr row col).data.contains ';' = false :=
          Bool.not_eq_true _ ▸ h2
        by_cases h3 : (cellStr row col).data.contains '|' = true
        · rw [List.find?_cons_of_pos _ h3] at hd
          obtain rfl : '|' = d := by injection hd
          refine ⟨Or.inr (Or.inr rfl), h3, ?_, fun _ => ⟨h1', h2'⟩⟩
          intro h; exact absurd h (by decide)
        · rw [List.find?_cons_of_neg _ h3] at hd
          cases hd
  · intro hd
    unfold detectDelimiter delimitersToCheck at hd
    by_cases h1 : (cellStr row col).data.contains ',' = true
    · rw [List.find?_cons_of_pos _ h1] at hd; cases hd
    · rw [List.find?_cons_of_neg _ h1] at hd
      by_cases h2 : (cellStr row col).data.contains ';' = true
      · rw [List.find?_cons_of_pos _ h2] at hd; cases hd
      · rw [List.find?_cons_of_neg _ h2] at hd
        by_cases h3 : (cellStr row col).data.contains '|' = true
        · rw [List.find?_cons_of_pos _ h3] at hd; cases hd
        · exact ⟨Bool.not_eq_true _ ▸ h1, Bool.not_eq_true _ ▸ h2,
            Bool.not_eq_true _ ▸ h3⟩
  · intro hd
    unfold columnResult
    by_cases hb : pyStripStr (cellStr row col) = ""
    · rw [if_pos hb, if_pos hb]
    · rw [if_neg hb, if_neg hb]
      cases hmv : cfg.enableMultivalue with
      | false => rw [Bool.cond_false]
      | true => rw [Bool.cond_true, hd]
  · intro d hd hlen
    unfold columnResult
    by_cases hb : pyStripStr (cellStr row col) = ""
    · rw [if_pos hb, if_pos hb]
    · rw [if_neg hb, if_neg hb]
      cases hmv : cfg.enableMultivalue with
      | false => rw [Bool.cond_false]
      | true => rw [Bool.cond_true, hd]; exact if_neg hlen

/-- Concrete configuration for the C6/C7 witnesses: multi-value mode on,
fuzzy matching off. -/
def cfgC6 : Config :=
  { referencePrimary := "Name", dataSource := "ID",
    targetColumns := ["C"], replaceColumns := ["R"],
    preserveStructure := true, fuzzyMatching := false,
    similarityThreshold := 8 / 10, enableMultivalue := true,
    ratio := fun _ _ => 0 }

def rowC6 : Row := [("C", .str "x;y")]

def rowC6b : Row := [("D", .str "plain")]

/-- **C6** (witness): on `"x;y"` detection returns `';'` (comma absent,
semicolon present); on `"plain"` no candidate occurs and the column is
processed single-valued. -/
theorem c6_witness :
    ((';' = ',' ∨ ';' = ';' ∨ ';' = '|') ∧
      (cellStr rowC6 "C").data.contains ';' = true ∧
      (';' = ';' → (cellStr rowC6 "C").data.contains ',' = false) ∧
      (';' = '|' → (cellStr rowC6 "C").data.contains ',' = false ∧
        (cellStr rowC6 "C").data.contains ';' = false)) ∧
    columnResult cfgC6 [] rowC6b "D" =
      (if pyStripStr (cellStr rowC6b "D") = "" then none
       else singleValueResult cfgC6 [] (cellStr rowC6b "D")) :=
  ⟨(c6_theorem cfgC6 [] rowC6 "C").1 ';' (by decide),
   (c6_theorem cfgC6 [] rowC6b "D").2.2.1 (by decide)⟩

/-! ## Claim C7: multi-value aggregation -/

theorem contains_iff_mem {α : Type} [DecidableEq α] (l : List α) (x : α) :
    l.contains x = true ↔ x ∈ l := by
  simp [List.contains_iff_exists_mem_beq]

/-- `find_match_for_value` (default flags) only produces EXACT or FUZZY
results; REVIEW never comes out of the matcher itself. -/
theorem findMatch_type (cfg : Config) (master : List Row) (p : String)
    (m : MatchInfo) (h : findMatchForValue cfg master p false false = some m) :
    m.type = .EXACT ∨ m.type = .FUZZY := by
  simp only [findMatchForValue, Bool.cond_false] at h
  by_cases hk : cleanName p = ""
  · rw [if_pos hk] at h; cases h
  · rw [if_neg hk] at h
    cases hf : master.find? (fun r => cleanRef cfg r == cleanName p) with
    | some r =>
      rw [hf, Option.map_some'] at h
      injection h with h2
      left; rw [← h2]
    | none =>
      rw [hf, Option.map_none'] at h
      dsimp only at h
      cases hfz : cfg.fuzzyMatching with
      | false => rw [hfz, Bool.cond_false] at h; cases h
      | true =>
        rw [hfz, Bool.cond_true] at h
        cases hne : (master.map (cleanRef cfg)).isEmpty with
        | true => rw [hne, Bool.cond_true] at h; cases h
        | false =>
          rw [hne, Bool.cond_false] at h
          cases hbc : bestCloseMatch cfg.ratio (cleanName p)
              (master.map (cleanRef cfg)) cfg.similarityThreshold with
          | none => rw [hbc] at h; cases h
          | some mn =>
            rw [hbc] at h
            dsimp only at h
            cases hf2 : master.find? (fun r => cleanRef cfg r == mn) with
            | none => rw [hf2] at h; cases h
            | some r =>
              rw [hf2] at h
              injection h with h2
              right; rw [← h2]

theorem multiInfo_type (cfg : Config) (master : List Row) (d : Char)
    (parts : List String) :
    (multiValueInfo cfg master d parts).type =
      (bif (parts.map (subResultType cfg master)).contains (some .EXACT) then
        MatchType.EXACT
       else bif (parts.map (subResultType cfg master)).contains (some .FUZZY) then
        MatchType.FUZZY
       else MatchType.REVIEW) := rfl

theorem multiInfo_conf (cfg : Config) (master : List Row) (d : Char)
    (parts : List String) :
    (multiValueInfo cfg master d parts).confidence =
      (bif (parts.map (subResultType cfg master)).contains (some .EXACT) then (1 : ℚ)
       else bif (parts.map (subResultType cfg master)).contains (some .FUZZY) then
        (8 : ℚ) / 10
       else 0) := rfl

theorem multiInfo_value (cfg : Config) (master : List Row) (d : Char)
    (parts : List String) :
    (multiValueInfo cfg master d parts).dataValue =
      joinWith d (parts.map (subResultValue cfg master)) := rfl

/-- `"EXACT" in match_types` (resp. FUZZY) says exactly that some
sub-value produced a result of that type. -/
theorem contains_type_iff (cfg : Config) (master : List Row)
    (parts : List String) (t : MatchType) :
    ((parts.map (subResultType cfg master)).contains (some t) = true) ↔
      ∃ p ∈ parts, ∃ m, findMatchForValue cfg master p false false = some m ∧
        m.type = t := by
  rw [show ((parts.map (subResultType cfg master)).contains (some t) = true) ↔
      some t ∈ parts.map (subResultType cfg master) by
    simp [List.contains_iff_exists_mem_beq]]
  constructor
  · intro h
    rcases List.mem_map.mp h with ⟨p, hp, hf⟩
    unfold subResultType at hf
    rcases Option.map_eq_some'.mp hf with ⟨m, hm, ht⟩
    exact ⟨p, hp, m, hm, ht⟩
  · rintro ⟨p, hp, m, hm, ht⟩
    apply List.mem_map.mpr
    refine ⟨p, hp, ?_⟩
    unfold subResultType
    rw [hm, Option.map_some', ht]

/-- **C7**: when multi-value mode is on and the detected delimiter
splits the raw value into at least two non-empty trimmed parts, each
sub-value is matched independently; the aggregate's replacement value
re-joins, with the same delimiter and in original order, the matched
`data_value`s and the sentinel `"match unfound"` for unmatched
sub-values; the aggregate type is EXACT if any sub-value matched
exactly, else FUZZY if any matched fuzzily, else REVIEW, with confidence
1.0, 0.8, 0.0 respectively. -/
theorem c7_theorem (cfg : Config) (master : List Row) (row : Row)
    (col : String) (d : Char)
    (hmv : cfg.enableMultivalue = true)
    (hb : ¬ pyStripStr (cellStr row col) = "")
    (hd : detectDelimiter (cellStr row col) = some d)
    (hl : 1 < (splitParts (cellStr row col) d).length) :
    columnResult cfg master row col =
      some (multiValueInfo cfg master d (splitParts (cellStr row col) d)) ∧
    (multiValueInfo cfg master d (splitParts (cellStr row col) d)).dataValue =
      joinWith d ((splitParts (cellStr row col) d).map
        (subResultValue cfg master)) ∧
    ((splitParts (cellStr row col) d).map (subResultValue cfg master)).length =
      (splitParts (cellStr row col) d).length ∧
    ((multiValueInfo cfg master d (splitParts (cellStr row col) d)).type =
        .EXACT ↔
      ∃ p ∈ splitParts (cellStr row col) d, ∃ m,
        findMatchForValue cfg master p false false = some m ∧
          m.type = .EXACT) ∧
    ((multiValueInfo cfg master d (splitParts (cellStr row col) d)).type =
        .FUZZY ↔
      (¬ ∃ p ∈ splitParts (cellStr row col) d, ∃ m,
          findMatchForValue cfg master p false false = some m ∧
            m.type = .EXACT) ∧
        ∃ p ∈ splitParts (cellStr row col) d, ∃ m,
          findMatchForValue cfg master p false false = some m ∧
            m.type = .FUZZY) ∧
    ((multiValueInfo cfg master d (splitParts (cellStr row col) d)).type =
        .REVIEW ↔
      ∀ p ∈ splitParts (cellStr row col) d,
        findMatchForValue cfg master p false false = none) ∧
    (multiValueInfo cfg master d (splitParts (cellStr row col) d)).confidence =
      (bif (multiValueInfo cfg master d
          (splitParts (cellStr row col) d)).type == MatchType.EXACT then (1 : ℚ)
       else bif (multiValueInfo cfg master d
          (splitParts (cellStr row col) d)).type == MatchType.FUZZY then
        (8 : ℚ) / 10
       else 0) := by
  refine ⟨?_, multiInfo_value cfg master d _, List.length_map _ _, ?_, ?_, ?_, ?_⟩
  · unfold columnResult
    rw [if_neg hb, hmv, Bool.cond_true, hd]
    dsimp only
    rw [if_pos hl]
  · rw [multiInfo_type]
    cases hE : (List.map (subResultType cfg master)
        (splitParts (cellStr row col) d)).contains (some .EXACT) with
    | true =>
      rw [Bool.cond_true]
      simp only [true_iff]
      exact (contains_type_iff cfg master _ .EXACT).mp hE
    | false =>
      rw [Bool.cond_false]
      constructor
      · intro hcontra
        cases hF : (List.map (subResultType cfg master)
            (splitParts (cellStr row col) d)).contains (some .FUZZY) with
        | true => rw [hF, Bool.cond_true] at hcontra; cases hcontra
        | false => rw [hF, Bool.cond_false] at hcontra; cases hcontra
      · intro hex
        have := (contains_type_iff cfg master
          (splitParts (cellStr row col) d) .EXACT).mpr hex
        rw [hE] at this
        cases this
  · rw [multiInfo_type]
    cases hE : (List.map (subResultType cfg master)
        (splitParts (cellStr row col) d)).contains (some .EXACT) with
    | true =>
      rw [Bool.cond_true]
      constructor
      · intro hcontra; cases hcontra
      · rintro ⟨hnex, _⟩
        exact absurd ((contains_type_iff cfg master _ .EXACT).mp hE) hnex
    | false =>
      rw [Bool.cond_false]
      have hnex : ¬ ∃ p ∈ splitParts (cellStr row col) d, ∃ m,
          findMatchForValue cfg master p false false = some m ∧
            m.type = .EXACT := by
        intro hex
        have := (contains_type_iff cfg master
          (splitParts (cellStr row col) d) .EXACT).mpr hex
        rw [hE] at this
        cases this
      cases hF : (List.map (subResultType cfg master)
          (splitParts (cellStr row col) d)).contains (some .FUZZY) with
      | true =>
        rw [Bool.cond_true]
        simp only [true_iff]
        exact ⟨hnex, (contains_type_iff cfg master _ .FUZZY).mp hF⟩
      | false =>
        rw [Bool.cond_false]
        constructor
        · intro hcontra; cases hcontra
        · rintro ⟨_, hfz⟩
          have := (contains_type_iff cfg master
            (splitParts (cellStr row col) d) .FUZZY).mpr hfz
          rw [hF] at this
          cases this
  · rw [multiInfo_type]
    cases hE : (List.map (subResultType cfg master)
        (splitParts (cellStr row col) d)).contains (some .EXACT) with
    | true =>
      rw [Bool.cond_true]
      constructor
      · intro hcontra; cases hcontra
      · intro hall
        rcases (contains_type_iff cfg master _ .EXACT).mp hE with
          ⟨p, hp, m, hm, _⟩
        rw [hall p hp] at hm
        cases hm
    | false =>
      cases hF : (List.map (subResultType cfg master)
          (splitParts (cellStr row col) d)).contains (some .FUZZY) with
      | true =>
        rw [Bool.cond_false, Bool.cond_true]
        constructor
        · intro hcontra; cases hcontra
        · intro hall
          rcases (contains_type_iff cfg master _ .FUZZY).mp hF with
            ⟨p, hp, m, hm, _⟩
          rw [hall p hp] at hm
          cases hm
      | false =>
        rw [Bool.cond_false, Bool.cond_false]
        simp only [true_iff]
        intro p hp
        cases hm : findMatchForValue cfg master p false false with
        | none => rfl
        | some m =>
          rcases findMatch_type cfg master p m hm with ht | ht
          · have := (contains_type_iff cfg master
              (splitParts (cellStr row col) d) .EXACT).mpr ⟨p, hp, m, hm, ht⟩
            rw [hE] at this
            cases this
          · have := (contains_type_iff cfg master
              (splitParts (cellStr row col) d) .FUZZY).mpr ⟨p, hp, m, hm, ht⟩
            rw [hF] at this
            cases this
  · rw [multiInfo_conf, multiInfo_type]
    cases hE : (List.map (subResultType cfg master)
        (splitParts (cellStr row col) d)).contains (some .EXACT) with
    | true => rfl
    | false =>
      cases hF : (List.map (subResultType cfg master)
          (splitParts (cellStr row col) d)).contains (some .FUZZY) with
      | true => rfl
      | false => rfl

def rowC7 : Row := [("C", .str "John Smith, Nobody")]

/-- **C7** (witness): the spec's concrete scenario — reference
`{Name "John Smith", ID "001"}`, target field `"John Smith, Nobody"` —
splits on `','`, matches the first sub-value and not the second, and the
aggregate's replacement value is `"001,match unfound"` with type
EXACT. -/
theorem c7_witness :
    columnResult cfgC6 [rowC4a] rowC7 "C" =
      some (multiValueInfo cfgC6 [rowC4a] ','
        (splitParts (cellStr rowC7 "C") ',')) ∧
    (multiValueInfo cfgC6 [rowC4a] ','
        (splitParts (cellStr rowC7 "C") ',')).dataValue =
      "001,match unfound" ∧
    (multiValueInfo cfgC6 [rowC4a] ','
        (splitParts (cellStr rowC7 "C") ',')).type = .EXACT := by
  have h := c7_theorem cfgC6 [rowC4a] rowC7 "C" ',' rfl (by decide) (by decide)
    (by decide)
  exact ⟨h.1, by decide, by decide⟩

/-! ## Claim C3: row-level best match and tracking fields -/

/-- Modelled from the spec's words for C3 (refinement comparison): the
row-level best match is the maximum-confidence entry, ties broken in
favour of the earliest configured column — i.e. the first entry whose
confidence no other entry exceeds. -/
def specBestMatch (ms : List (ℕ × String × MatchInfo)) :
    Option (ℕ × String × MatchInfo) :=
  findFirstMax matchEntryKey ms

/-- The four tracking cells of a row. -/
def trackingOf (r : Row) :
    Option Cell × Option Cell × Option Cell × Option Cell :=
  (getCell r "Match_Type", getCell r "Matched_Reference_Name",
   getCell r "Confidence", getCell r "Matched_Column")

theorem getCell_rowSet_of_hasCol (r : Row) (c : String) (v : Cell)
    (h : hasCol r c = true) : getCell (rowSet r c v) c = some v := by
  rw [getCell_rowSet_self]
  unfold hasCol at h
  cases hg : getCell r c with
  | none => rw [hg] at h; simp at h
  | some x => rfl

theorem stepWrite_hasCol (cfg : Config) (r : Row)
    (e : ℕ × String × MatchInfo) (c : String) :
    hasCol (stepWrite cfg r e) c = hasCol r c := by
  unfold stepWrite
  by_cases h : e.1 < cfg.replaceColumns.length
  · rw [if_pos h]
    dsimp only
    cases hrc : hasCol r (cfg.replaceColumns.getD e.1 "") with
    | true => rw [Bool.cond_true, hasCol_rowSet]
    | false => rw [Bool.cond_false]
  · rw [if_neg h]

theorem arw_hasCol (cfg : Config) (ms : List (ℕ × String × MatchInfo)) :
    ∀ (r : Row) (c : String),
      hasCol (applyReplaceWrites cfg ms r) c = hasCol r c := by
  induction ms with
  | nil => intro r c; rfl
  | cons e es ih =>
    intro r c
    show hasCol (applyReplaceWrites cfg es (stepWrite cfg r e)) c = hasCol r c
    rw [ih (stepWrite cfg r e) c, stepWrite_hasCol]

theorem addTracking_MT (r : Row) :
    getCell (addTracking r) "Match_Type" = some (.str "") := by
  unfold addTracking
  rw [getCell_force_ne _ _ _ _ (by decide), getCell_force_ne _ _ _ _ (by decide),
    getCell_force_ne _ _ _ _ (by decide), getCell_force_self]

theorem addTracking_MRN (r : Row) :
    getCell (addTracking r) "Matched_Reference_Name" = some (.str "") := by
  unfold addTracking
  rw [getCell_force_ne _ _ _ _ (by decide), getCell_force_ne _ _ _ _ (by decide),
    getCell_force_self]

theorem addTracking_CONF (r : Row) :
    getCell (addTracking r) "Confidence" = some (.str "") := by
  unfold addTracking
  rw [getCell_force_ne _ _ _ _ (by decide), getCell_force_self]

theorem addTracking_MC (r : Row) :
    getCell (addTracking r) "Matched_Column" = some (.str "") := by
  unfold addTracking
  rw [getCell_force_self]

theorem addTracking_hasCol_MT (r : Row) :
    hasCol (addTracking r) "Match_Type" = true := by
  unfold hasCol; rw [addTracking_MT]; rfl

theorem addTracking_hasCol_MRN (r : Row) :
    hasCol (addTracking r) "Matched_Reference_Name" = true := by
  unfold hasCol; rw [addTracking_MRN]; rfl

theorem addTracking_hasCol_CONF (r : Row) :
    hasCol (addTracking r) "Confidence" = true := by
  unfold hasCol; rw [addTracking_CONF]; rfl

theorem addTracking_hasCol_MC (r : Row) :
    hasCol (addTracking r) "Matched_Column" = true := by
  unfold hasCol; rw [addTracking_MC]; rfl

/-- **C3**: after all configured target columns of a row are evaluated,
the tracking fields (`Match_Type`, `Matched_Reference_Name`,
`Confidence` rounded to 3 decimals, `Matched_Column`) are written from
the maximum-confidence column result, ties broken in favour of the
earliest configured column (`specBestMatch` is the specification's
"first entry of maximal confidence"); if no column produced a result,
`Match_Type` is set to `"REVIEW"` and the other tracking fields stay
blank. -/
theorem c3_theorem (cfg : Config) (master : List Row) (r0 : Row) :
    trackingOf (processRow cfg master (addTracking r0)).1 =
      (match specBestMatch (matchesFound cfg master (addTracking r0)) with
       | some e =>
         (some (.str e.2.2.type.toStr), some (.str e.2.2.matchedName),
          some (.num (round3 e.2.2.confidence)), some (.str e.2.1))
       | none =>
         (some (.str "REVIEW"), some (.str ""), some (.str ""),
          some (.str ""))) := by
  have hspec : specBestMatch (matchesFound cfg master (addTracking r0)) =
      pickFirstMax matchEntryKey (matchesFound cfg master (addTracking r0)) :=
    (pickFirstMax_eq_findFirstMax matchEntryKey _).symm
  rw [hspec]
  unfold processRow
  dsimp only
  cases hbm : pickFirstMax matchEntryKey
      (matchesFound cfg master (addTracking r0)) with
  | some e =>
    dsimp only
    have hMT := arw_hasCol cfg (matchesFound cfg master (addTracking r0))
      (addTracking r0) "Match_Type"
    rw [addTracking_hasCol_MT] at hMT
    have hMRN := arw_hasCol cfg (matchesFound cfg master (addTracking r0))
      (addTracking r0) "Matched_Reference_Name"
    rw [addTracking_hasCol_MRN] at hMRN
    have hCONF := arw_hasCol cfg (matchesFound cfg master (addTracking r0))
      (addTracking r0) "Confidence"
    rw [addTracking_hasCol_CONF] at hCONF
    have hMC := arw_hasCol cfg (matchesFound cfg master (addTracking r0))
      (addTracking r0) "Matched_Column"
    rw [addTracking_hasCol_MC] at hMC
    unfold trackingOf
    rw [getCell_rowSet_ne _ _ _ _ (by decide),
      getCell_rowSet_ne _ _ _ _ (by decide),
      getCell_rowSet_ne _ _ _ _ (by decide),
      getCell_rowSet_of_hasCol _ _ _ hMT]
    rw [getCell_rowSet_ne _ _ _ _ (by decide),
      getCell_rowSet_ne _ _ _ _ (by decide),
      getCell_rowSet_of_hasCol _ _ _ (by
        rw [hasCol_rowSet]; exact hMRN)]
    rw [getCell_rowSet_ne _ _ _ _ (by decide),
      getCell_rowSet_of_hasCol _ _ _ (by
        rw [hasCol_rowSet, hasCol_rowSet]; exact hCONF)]
    rw [getCell_rowSet_of_hasCol _ _ _ (by
      rw [hasCol_rowSet, hasCol_rowSet, hasCol_rowSet]; exact hMC)]
  | none =>
    dsimp only
    unfold trackingOf
    rw [getCell_rowSet_of_hasCol _ _ _ (addTracking_hasCol_MT r0),
      getCell_rowSet_ne _ _ _ _ (by decide),
      getCell_rowSet_ne _ _ _ _ (by decide),
      getCell_rowSet_ne _ _ _ _ (by decide),
      addTracking_MRN, addTracking_CONF, addTracking_MC]

/-! ## Claim C10: positional replace-column writes -/

theorem not_mem_tracking (c : String) (h : c ∉ trackingNames) :
    c ≠ "Match_Type" ∧ c ≠ "Matched_Reference_Name" ∧ c ≠ "Confidence" ∧
      c ≠ "Matched_Column" := by
  simp only [trackingNames, List.mem_cons, List.not_mem_nil, or_false] at h
  push_neg at h
  exact h

theorem addTracking_getCell_ne (r : Row) (c : String) (h : c ∉ trackingNames) :
    getCell (addTracking r) c = getCell r c := by
  rcases not_mem_tracking c h with ⟨h1, h2, h3, h4⟩
  unfold addTracking
  rw [getCell_force_ne _ _ _ _ h4, getCell_force_ne _ _ _ _ h3,
    getCell_force_ne _ _ _ _ h2, getCell_force_ne _ _ _ _ h1]

theorem addTracking_hasCol_mono (r : Row) (c : String)
    (h : hasCol r c = true) : hasCol (addTracking r) c = true := by
  unfold addTracking
  exact hasCol_force _ _ _ _ (hasCol_force _ _ _ _
    (hasCol_force _ _ _ _ (hasCol_force _ _ _ _ h)))

theorem arw_getCell_untouched (cfg : Config) (c : String) :
    ∀ (ms : List (ℕ × String × MatchInfo)) (r : Row),
      (∀ e ∈ ms, ¬(e.1 < cfg.replaceColumns.length ∧
        cfg.replaceColumns.getD e.1 "" = c)) →
      getCell (applyReplaceWrites cfg ms r) c = getCell r c := by
  intro ms
  induction ms with
  | nil => intro r _; rfl
  | cons e es ih =>
    intro r h
    show getCell (applyReplaceWrites cfg es (stepWrite cfg r e)) c = _
    rw [ih (stepWrite cfg r e) (fun e' he' => h e' (List.mem_cons_of_mem e he'))]
    have he := h e (List.mem_cons_self e es)
    unfold stepWrite
    by_cases hlt : e.1 < cfg.replaceColumns.length
    · rw [if_pos hlt]
      dsimp only
      have hne : cfg.replaceColumns.getD e.1 "" ≠ c := fun hh => he ⟨hlt, hh⟩
      cases hrc : hasCol r (cfg.replaceColumns.getD e.1 "") with
      | true =>
        rw [Bool.cond_true]
        exact getCell_rowSet_ne r _ c _ (fun hh => hne hh.symm)
      | false => rw [Bool.cond_false]
    · rw [if_neg hlt]

theorem arw_getCell_written (cfg : Config) (e : ℕ × String × MatchInfo)
    (ms2 : List (ℕ × String × MatchInfo)) (r : Row)
    (hlt : e.1 < cfg.replaceColumns.length)
    (hpres : hasCol r (cfg.replaceColumns.getD e.1 "") = true)
    (hms2 : ∀ e' ∈ ms2, ¬(e'.1 < cfg.replaceColumns.length ∧
      cfg.replaceColumns.getD e'.1 "" = cfg.replaceColumns.getD e.1 "")) :
    getCell (applyReplaceWrites cfg (e :: ms2) r)
      (cfg.replaceColumns.getD e.1 "") = some (.str e.2.2.dataValue) := by
  show getCell (applyReplaceWrites cfg ms2 (stepWrite cfg r e)) _ = _
  rw [arw_getCell_untouched cfg _ ms2 (stepWrite cfg r e) hms2]
  unfold stepWrite
  rw [if_pos hlt]
  dsimp only
  rw [hpres, Bool.cond_true]
  exact getCell_rowSet_of_hasCol r _ _ hpres

theorem arw_append (cfg : Config) (ms1 ms2 : List (ℕ × String × MatchInfo))
    (r : Row) :
    applyReplaceWrites cfg (ms1 ++ ms2) r =
      applyReplaceWrites cfg ms2 (applyReplaceWrites cfg ms1 r) :=
  List.foldl_append _ _ _ _

theorem collect_cons (cfg : Config) (master : List Row) (row : Row) (k : ℕ)
    (col : String) (cols : List String) :
    collectMatches cfg master row k (col :: cols) =
      (match columnResult cfg master row col with
       | some m => (k, col, m) :: collectMatches cfg master row (k + 1) cols
       | none => collectMatches cfg master row (k + 1) cols) := rfl

theorem collect_lb (cfg : Config) (master : List Row) (row : Row) :
    ∀ (cols : List String) (k : ℕ) (e : ℕ × String × MatchInfo),
      e ∈ collectMatches cfg master row k cols → k ≤ e.1 := by
  intro cols
  induction cols with
  | nil =>
    intro k e he
    exact absurd he (List.not_mem_nil e)
  | cons col cols' ih =>
    intro k e he
    cases hcr : columnResult cfg master row col with
    | some m =>
      rw [collect_cons, hcr] at he
      dsimp only at he
      rcases List.mem_cons.mp he with rfl | he'
      · exact le_refl k
      · exact le_trans (Nat.le_succ k) (ih (k + 1) e he')
    | none =>
      rw [collect_cons, hcr] at he
      dsimp only at he
      exact le_trans (Nat.le_succ k) (ih (k + 1) e he)

theorem collect_pairwise (cfg : Config) (master : List Row) (row : Row) :
    ∀ (cols : List String) (k : ℕ),
      List.Pairwise (fun a b => a.1 < b.1)
        (collectMatches cfg master row k cols) := by
  intro cols
  induction cols with
  | nil => intro k; exact List.Pairwise.nil
  | cons col cols' ih =>
    intro k
    cases hcr : columnResult cfg master row col with
    | some m =>
      rw [collect_cons, hcr]
      dsimp only
      refine List.Pairwise.cons ?_ (ih (k + 1))
      intro e he
      have := collect_lb cfg master row cols' (k + 1) e he
      omega
    | none =>
      rw [collect_cons, hcr]
      dsimp only
      exact ih (k + 1)

theorem getD_mem_of_lt (l : List String) (i : ℕ) (h : i < l.length) :
    l.getD i "" ∈ l := by
  rw [List.getD_eq_getElem l _ h]
  exact List.getElem_mem h

theorem getD_inj_of_nodup (l : List String) (hnd : l.Nodup) (i j : ℕ)
    (hi : i < l.length) (hj : j < l.length)
    (h : l.getD i "" = l.getD j "") : i = j := by
  rw [List.getD_eq_getElem l _ hi, List.getD_eq_getElem l _ hj] at h
  exact (List.Nodup.getElem_inj_iff hnd).mp h

/-- Reading any non-tracking column of a processed row passes through
the four tracking-field writes and reaches the replace-write phase (or
the untouched row when no column matched). -/
theorem processRow_getCell_nontracking (cfg : Config) (master : List Row)
    (r : Row) (c : String) (hc : c ∉ trackingNames) :
    getCell (processRow cfg master r).1 c =
      (match pickFirstMax matchEntryKey (matchesFound cfg master r) with
       | some _ =>
         getCell (applyReplaceWrites cfg (matchesFound cfg master r) r) c
       | none => getCell r c) := by
  rcases not_mem_tracking c hc with ⟨h1, h2, h3, h4⟩
  unfold processRow
  dsimp only
  cases hbm : pickFirstMax matchEntryKey (matchesFound cfg master r) with
  | some e =>
    dsimp only
    rw [getCell_rowSet_ne _ _ _ _ h4, getCell_rowSet_ne _ _ _ _ h3,
      getCell_rowSet_ne _ _ _ _ h2, getCell_rowSet_ne _ _ _ _ h1]
  | none =>
    dsimp only
    rw [getCell_rowSet_ne _ _ _ _ h1]

/-- **C10**: for every row and every target-column position `i` that
produced a MatchResult, the result's `data_value` is written into the
replace column at position `i` exactly when a replace column is
configured at position `i` (and, as the code also checks, that column
exists in the row); the write is a direct overwrite of that cell, a
position with no result leaves its replace column unchanged, and all
other non-tracking columns are untouched. Hypotheses: the configured
replace columns are distinct, exist in the row, and do not collide with
the four engine-written tracking columns. -/
theorem c10_theorem (cfg : Config) (master : List Row) (r0 : Row)
    (hnd : cfg.replaceColumns.Nodup)
    (hpres : ∀ c ∈ cfg.replaceColumns, hasCol r0 c = true)
    (htr : ∀ c ∈ cfg.replaceColumns, c ∉ trackingNames) :
    (∀ i col m, (i, col, m) ∈ matchesFound cfg master (addTracking r0) →
      i < cfg.replaceColumns.length →
      getCell (processRow cfg master (addTracking r0)).1
        (cfg.replaceColumns.getD i "") = some (.str m.dataValue))
    ∧ (∀ i, i < cfg.replaceColumns.length →
        (∀ col m, (i, col, m) ∉ matchesFound cfg master (addTracking r0)) →
        getCell (processRow cfg master (addTracking r0)).1
          (cfg.replaceColumns.getD i "") =
          getCell r0 (cfg.replaceColumns.getD i ""))
    ∧ (∀ c, c ∉ cfg.replaceColumns → c ∉ trackingNames →
        getCell (processRow cfg master (addTracking r0)).1 c =
          getCell r0 c) := by
  refine ⟨?_, ?_, ?_⟩
  · intro i col m hmem hlt
    have hrc_mem := getD_mem_of_lt cfg.replaceColumns i hlt
    have hrc_tr := htr _ hrc_mem
    have hrc_pres := addTracking_hasCol_mono r0 _ (hpres _ hrc_mem)
    rw [processRow_getCell_nontracking cfg master (addTracking r0) _ hrc_tr]
    have hne : matchesFound cfg master (addTracking r0) ≠ [] :=
      List.ne_nil_of_mem hmem
    cases hbm : pickFirstMax matchEntryKey
        (matchesFound cfg master (addTracking r0)) with
    | none => exact absurd hbm (pickFirstMax_ne_none _ _ hne)
    | some e =>
      dsimp only
      rcases List.append_of_mem hmem with ⟨ms1, ms2, hdec⟩
      have hpw := collect_pairwise cfg master (addTracking r0)
        cfg.targetColumns 0
      rw [show collectMatches cfg master (addTracking r0) 0 cfg.targetColumns =
        matchesFound cfg master (addTracking r0) from rfl, hdec] at hpw
      have hrel := (List.pairwise_cons.mp (List.pairwise_append.mp hpw).2.1).1
      have hms2 : ∀ e' ∈ ms2, ¬(e'.1 < cfg.replaceColumns.length ∧
          cfg.replaceColumns.getD e'.1 "" =
            cfg.replaceColumns.getD (i, col, m).1 "") := by
        rintro e' he' ⟨hlt', heq⟩
        have hgt : (i, col, m).1 < e'.1 := hrel e' he'
        have heqi : e'.1 = i := getD_inj_of_nodup _ hnd _ _ hlt' hlt heq
        dsimp only at hgt
        omega
      rw [hdec, arw_append]
      have hpres2 : hasCol (applyReplaceWrites cfg ms1 (addTracking r0))
          (cfg.replaceColumns.getD (i, col, m).1 "") = true := by
        rw [arw_hasCol]
        exact hrc_pres
      exact arw_getCell_written cfg (i, col, m) ms2 _ hlt hpres2 hms2
  · intro i hlt hno
    have hrc_mem := getD_mem_of_lt cfg.replaceColumns i hlt
    have hrc_tr := htr _ hrc_mem
    rw [processRow_getCell_nontracking cfg master (addTracking r0) _ hrc_tr]
    have huntouched : ∀ e ∈ matchesFound cfg master (addTracking r0),
        ¬(e.1 < cfg.replaceColumns.length ∧
          cfg.replaceColumns.getD e.1 "" = cfg.replaceColumns.getD i "") := by
      rintro e he ⟨hlt', heq⟩
      have heqi : e.1 = i := getD_inj_of_nodup _ hnd _ _ hlt' hlt heq
      apply hno e.2.1 e.2.2
      rw [← heqi]
      exact he
    cases hbm : pickFirstMax matchEntryKey
        (matchesFound cfg master (addTracking r0)) with
    | some e =>
      dsimp only
      rw [arw_getCell_untouched cfg _ _ _ huntouched,
        addTracking_getCell_ne r0 _ hrc_tr]
    | none =>
      dsimp only
      rw [addTracking_getCell_ne r0 _ hrc_tr]
  · intro c hc htc
    rw [processRow_getCell_nontracking cfg master (addTracking r0) c htc]
    have huntouched : ∀ e ∈ matchesFound cfg master (addTracking r0),
        ¬(e.1 < cfg.replaceColumns.length ∧
          cfg.replaceColumns.getD e.1 "" = c) := by
      rintro e he ⟨hlt', heq⟩
      exact hc (heq ▸ getD_mem_of_lt _ _ hlt')
    cases hbm : pickFirstMax matchEntryKey
        (matchesFound cfg master (addTracking r0)) with
    | some e =>
      dsimp only
      rw [arw_getCell_untouched cfg c _ _ huntouched,
        addTracking_getCell_ne r0 c htc]
    | none =>
      dsimp only
      rw [addTracking_getCell_ne r0 c htc]

/-- Concrete configuration for the C10 witness: two target columns, one
replace column (position 1 has no replace column). -/
def cfgC10 : Config :=
  { referencePrimary := "N", dataSource := "D",
    targetColumns := ["T1", "T2"], replaceColumns := ["R1"],
    preserveStructure := true, fuzzyMatching := false,
    similarityThreshold := 8 / 10, enableMultivalue := false,
    ratio := fun _ _ => 0 }

def masterC10 : List Row := [[("N", .str "alice"), ("D", .str "42")]]

def rowC10 : Row :=
  [("T1", .str "Alice"), ("T2", .str "alice"), ("R1", .str "old"),
   ("X", .str "keep")]

def rowC10b : Row := [("T1", .str " "), ("R1", .str "old")]

/-- **C10** (witness): position 0 matched, so `R1` is overwritten with
the matched data value `"42"`; on a row where no column produced a
result, `R1` keeps its old value; an unrelated column `X` is untouched
even though position 1 also matched (it has no replace column). -/
theorem c10_witness :
    getCell (processRow cfgC10 masterC10 (addTracking rowC10)).1 "R1" =
      some (.str "42") ∧
    getCell (processRow cfgC10 masterC10 (addTracking rowC10b)).1 "R1" =
      some (.str "old") ∧
    getCell (processRow cfgC10 masterC10 (addTracking rowC10)).1 "X" =
      some (.str "keep") := by
  have hc10 := c10_theorem cfgC10 masterC10 rowC10 (by decide) (by decide)
    (by decide)
  have hc10b := c10_theorem cfgC10 masterC10 rowC10b (by decide) (by decide)
    (by decide)
  refine ⟨?_, ?_, ?_⟩
  · exact hc10.1 0 "T1" ⟨.EXACT, "alice", 1, "42"⟩ (by decide) (by decide)
  · have hms : matchesFound cfgC10 masterC10 (addTracking rowC10b) = [] := by
      decide
    have h := hc10b.2.1 0 (by decide) (fun col m hmem => by
      rw [hms] at hmem
      exact absurd hmem (List.not_mem_nil _))
    exact h.trans (by decide)
  · exact (hc10.2.2 "X" (by decide) (by decide)).trans (by decide)

/-! ## Claim C2: statistics and row iteration -/

/-- The row outcomes that increment `exact_matches`: best type EXACT. -/
def outcomeExact (o : Option MatchType) : Bool := o == some .EXACT

/-- The row outcomes that increment `fuzzy_matches`: some best match
whose type is not EXACT (the `else` branch of the counter update). -/
def outcomeFuzzy (o : Option MatchType) : Bool :=
  o.isSome && !(o == some .EXACT)

/-- The row outcomes that increment `no_matches`: no match at all. -/
def outcomeNoMatch (o : Option MatchType) : Bool := o.isNone

/-- The row loop visits the rows in order (the output is a `map` over
them) and the three counters count rows by their resolved outcome. -/
theorem runRows_spec (cfg : Config) (master : List Row) :
    ∀ l : List Row,
      runRows cfg master l =
        (l.map (fun r => (processRow cfg master r).1),
         l.countP (fun r => outcomeExact (processRow cfg master r).2),
         l.countP (fun r => outcomeFuzzy (processRow cfg master r).2),
         l.countP (fun r => outcomeNoMatch (processRow cfg master r).2)) := by
  intro l
  induction l with
  | nil => rfl
  | cons r rs ih =>
    unfold runRows
    dsimp only
    rw [ih]
    cases o : (processRow cfg master r).2 with
    | none =>
      dsimp only
      simp [outcomeExact, outcomeFuzzy, outcomeNoMatch, o, List.countP_cons]
    | some t =>
      cases t <;>
        (dsimp only;
         simp [outcomeExact, outcomeFuzzy, outcomeNoMatch, o, List.countP_cons])

/-- **C2** (amended): with a valid configuration in structure-preserving
mode, the run completes without an exception, visits the target rows in
original order, and: rows whose best MatchResult has type EXACT
increment `exactMatches`; rows that have a best MatchResult of any
*other* type — FUZZY, or REVIEW coming from an all-unmatched multi-value
aggregate — increment `fuzzyMatches`; only rows with no column result at
all increment `noMatches`. `totalRecords` is the number of target rows
and percentage statistics are computed exactly when the target table is
non-empty (an empty table completes with `totalRecords = 0`, no
percentages, no exception). -/
theorem c2_theorem (cfg : Config) (master tgt : List Row)
    (h1 : cfg.referencePrimary ≠ "")
    (h2 : cfg.targetColumns ≠ [])
    (h3 : cfg.replaceColumns ≠ [])
    (h4 : cfg.dataSource ≠ "")
    (h5 : cfg.preserveStructure = true) :
    ∃ rows stats, processData cfg master tgt = .ok (rows, stats) ∧
      rows = tgt.map (fun r => (processRow cfg master (addTracking r)).1) ∧
      stats.exactMatches = tgt.countP
        (fun r => outcomeExact (processRow cfg master (addTracking r)).2) ∧
      stats.fuzzyMatches = tgt.countP
        (fun r => outcomeFuzzy (processRow cfg master (addTracking r)).2) ∧
      stats.noMatches = tgt.countP
        (fun r => outcomeNoMatch (processRow cfg master (addTracking r)).2) ∧
      stats.totalRecords = tgt.length ∧
      (stats.percentages.isSome ↔ tgt ≠ []) := by
  unfold processData
  rw [if_neg h1, if_neg h2,
    if_neg (by rintro ⟨_, hrep⟩; exact h3 hrep), if_neg h4, h5,
    Bool.cond_true]
  dsimp only
  rw [runRows_spec]
  dsimp only
  refine ⟨_, _, rfl, ?_, ?_, ?_, ?_, ?_, ?_⟩
  · rw [List.map_map]
    rfl
  · show ((tgt.map addTracking).countP
      (fun r => outcomeExact (processRow cfg master r).2)) = _
    rw [List.countP_map]
    rfl
  · show ((tgt.map addTracking).countP
      (fun r => outcomeFuzzy (processRow cfg master r).2)) = _
    rw [List.countP_map]
    rfl
  · show ((tgt.map addTracking).countP
      (fun r => outcomeNoMatch (processRow cfg master r).2)) = _
    rw [List.countP_map]
    rfl
  · show (List.map _ (tgt.map addTracking)).length = _
    rw [List.length_map, List.length_map]
  · unfold mkStats
    dsimp only
    rw [List.length_map, List.length_map]
    by_cases ht : tgt = []
    · subst ht
      simp
    · have hpos : 0 < tgt.length := List.length_pos.mpr ht
      rw [if_pos hpos]
      simp [ht]

/-- Concrete data for the C2 counterexample: multi-value mode on, fuzzy
off, one reference row that matches nothing, one target row `"a,b"`. -/
def cfgC2x : Config :=
  { referencePrimary := "N", dataSource := "D",
    targetColumns := ["C"], replaceColumns := ["R"],
    preserveStructure := true, fuzzyMatching := false,
    similarityThreshold := 8 / 10, enableMultivalue := true,
    ratio := fun _ _ => 0 }

def masterC2x : List Row := [[("N", .str "zzz"), ("D", .str "9")]]

def tgtC2x : List Row := [[("C", .str "a,b"), ("R", .str "")]]

/-- **C2** (counterexample): the claim says rows resolved as REVIEW
increment `noMatches`. On this run the single row's multi-value
aggregate has type REVIEW — its `Match_Type` tracking field is written
`"REVIEW"` — yet the code's `else` branch increments `fuzzyMatches`
(it only tests for `"EXACT"`), so `fuzzyMatches = 1` and
`noMatches = 0`. -/
theorem c2_counterexample :
    ((processData cfgC2x masterC2x tgtC2x).toOption.map
      (fun x => (x.1.head?.bind (fun r => getCell r "Match_Type"),
                 x.2.fuzzyMatches, x.2.noMatches))) =
      some (some (.str "REVIEW"), 1, 0) := by
  decide

def cfgC2 : Config :=
  { referencePrimary := "N", dataSource := "D",
    targetColumns := ["C"], replaceColumns := ["R"],
    preserveStructure := true, fuzzyMatching := false,
    similarityThreshold := 8 / 10, enableMultivalue := false,
    ratio := fun _ _ => 0 }

def masterC2 : List Row := [[("N", .str "bob"), ("D", .str "7")]]

def tgtC2 : List Row := [[("C", .str "Bob"), ("R", .str "")]]

/-- **C2** (witness): the amended statement at a concrete run — one
reference row, one matching target row. -/
theorem c2_witness :
    ∃ rows stats,
      processData cfgC2 masterC2 tgtC2 = .ok (rows, stats) ∧
      rows = tgtC2.map
        (fun r => (processRow cfgC2 masterC2 (addTracking r)).1) ∧
      stats.exactMatches = tgtC2.countP
        (fun r => outcomeExact (processRow cfgC2 masterC2 (addTracking r)).2) ∧
      stats.fuzzyMatches = tgtC2.countP
        (fun r => outcomeFuzzy (processRow cfgC2 masterC2 (addTracking r)).2) ∧
      stats.noMatches = tgtC2.countP
        (fun r => outcomeNoMatch (processRow cfgC2 masterC2 (addTracking r)).2) ∧
      stats.totalRecords = tgtC2.length ∧
      (stats.percentages.isSome ↔ tgtC2 ≠ []) :=
  c2_theorem cfgC2 masterC2 tgtC2
    (by decide) (by decide) (by decide) (by decide) rfl

/-! ## Claim C9: configuration errors precede all row processing -/

/-- **C9**: whenever a required selection is missing — no reference
primary column, no target columns, no replace columns while
structure-preserving mode is on, or no data-source column — the run
raises a configuration error (`ValueError`) before any row is
processed: the result is an error and no updated table is produced, so
no target row is modified and no run statistics are computed. -/
theorem c9_theorem (cfg : Config) (master tgt : List Row)
    (h : cfg.referencePrimary = "" ∨ cfg.targetColumns = [] ∨
      (cfg.preserveStructure = true ∧ cfg.replaceColumns = []) ∨
      cfg.dataSource = "") :
    ∃ msg, processData cfg master tgt = .error msg := by
  unfold processData
  by_cases h1 : cfg.referencePrimary = ""
  · rw [if_pos h1]
    exact ⟨_, rfl⟩
  · rw [if_neg h1]
    by_cases h2 : cfg.targetColumns = []
    · rw [if_pos h2]
      exact ⟨_, rfl⟩
    · rw [if_neg h2]
      by_cases h3 : cfg.preserveStructure = true ∧ cfg.replaceColumns = []
      · rw [if_pos h3]
        exact ⟨_, rfl⟩
      · rw [if_neg h3]
        by_cases h4 : cfg.dataSource = ""
        · rw [if_pos h4]
          exact ⟨_, rfl⟩
        · rcases h with h | h | h | h
          · exact absurd h h1
          · exact absurd h h2
          · exact absurd h h3
          · exact absurd h h4

def cfgC9 : Config :=
  { referencePrimary := "", dataSource := "D",
    targetColumns := ["C"], replaceColumns := ["R"],
    preserveStructure := true, fuzzyMatching := false,
    similarityThreshold := 8 / 10, enableMultivalue := false,
    ratio := fun _ _ => 0 }

/-- **C9** (witness): with no reference primary column selected, the run
errors out and produces no table. -/
theorem c9_witness :
    ∃ msg, processData cfgC9 [] [[("C", Cell.str "x")]] = .error msg :=
  c9_theorem cfgC9 [] [[("C", Cell.str "x")]] (Or.inl rfl)

/-! ## Claim C8: whole-column replace and single-level undo -/

theorem getColumn_restore (t : List Row) (c : String) (val : String)
    (h : t.all (fun r => hasCol r c) = true) :
    getColumnCells (setColumnCells (t.map (fun r => rowSet r c (.str val)))
      c (t.map (fun r => (getCell r c).getD (.str "")))) c =
      some (t.map (fun r => (getCell r c).getD (.str ""))) := by
  unfold setColumnCells
  rw [List.zip_map', List.map_map]
  have hall := List.all_eq_true.mp h
  have hrows : ∀ r ∈ t,
      ((fun rv : Row × Cell => rowSet rv.1 c rv.2) ∘
        fun r => (rowSet r c (.str val), (getCell r c).getD (.str ""))) r =
      rowSet (rowSet r c (.str val)) c ((getCell r c).getD (.str "")) :=
    fun r _ => rfl
  unfold getColumnCells
  have hpres : ∀ r ∈ t, hasCol
      (rowSet (rowSet r c (.str val)) c ((getCell r c).getD (.str ""))) c =
      true := by
    intro r hr
    rw [hasCol_rowSet, hasCol_rowSet]
    exact hall r hr
  have hallmap : (List.map ((fun rv : Row × Cell => rowSet rv.1 c rv.2) ∘
      fun r => (rowSet r c (.str val), (getCell r c).getD (.str ""))) t).all
      (fun r => hasCol r c) = true := by
    rw [List.all_eq_true]
    intro x hx
    rcases List.mem_map.mp hx with ⟨r, hr, hrx⟩
    rw [← hrx]
    exact hpres r hr
  rw [if_pos hallmap, List.map_map]
  congr 1
  apply List.map_congr_left
  intro r hr
  show (getCell (rowSet (rowSet r c (.str val)) c
    ((getCell r c).getD (.str ""))) c).getD (.str "") = _
  rw [getCell_rowSet_of_hasCol _ c _ (by
    rw [hasCol_rowSet]; exact hall r hr)]
  rfl

/-- **C8**: `replaceColumn(c, v)` snapshots column `c` and overwrites
it; `undoColumnReplace()` then restores column `c` to exactly the values
it held before the replace and discards the snapshot, so a second undo
fails with "Nothing to Undo"; and an undo with no snapshot at all fails
with "Nothing to Undo" and changes nothing. -/
theorem c8_theorem (st : ReplaceState) (c v : String) (cells : List Cell)
    (hc : c ≠ "")
    (hcol : getColumnCells st.table c = some cells) :
    ∃ st1 st2,
      replaceEntireColumn st c v = .ok st1 ∧
      undoReplaceColumn st1 = .ok st2 ∧
      getColumnCells st2.table c = some cells ∧
      st2.undoData = none ∧ st2.undoName = none ∧
      (∃ msg2, undoReplaceColumn st2 = .error msg2) ∧
      (∀ s : ReplaceState, s.undoData = none ∨ s.undoName = none →
        undoReplaceColumn s = .error "Nothing to Undo") := by
  have hall : st.table.all (fun r => hasCol r c) = true := by
    by_contra hna
    rw [Bool.not_eq_true] at hna
    unfold getColumnCells at hcol
    rw [hna] at hcol
    simp at hcol
  have hcells : cells = st.table.map (fun r => (getCell r c).getD (.str "")) := by
    unfold getColumnCells at hcol
    rw [if_pos hall] at hcol
    exact (Option.some.inj hcol).symm
  have hrep : replaceEntireColumn st c v =
      .ok { table := st.table.map (fun r => rowSet r c (.str v)),
            undoData := some cells, undoName := some c } := by
    unfold replaceEntireColumn
    rw [if_neg hc, hcol]
  refine ⟨_, _, hrep, rfl, ?_, rfl, rfl, ⟨"Nothing to Undo", rfl⟩, ?_⟩
  · show getColumnCells (setColumnCells
      (st.table.map (fun r => rowSet r c (.str v))) c cells) c = some cells
    rw [hcells]
    exact getColumn_restore st.table c v hall
  · intro s hs
    unfold undoReplaceColumn
    rcases hs with hs | hs <;> rw [hs]
    cases s.undoData <;> rfl

def stC8 : ReplaceState :=
  { table := [[("Status", .str "new")], [("Status", .str "old")],
              [("Status", .str "hold")]],
    undoData := none, undoName := none }

/-- **C8** (witness): the spec's concrete scenario —
`replaceColumn("Status", "Reviewed")` on a 3-row table followed by
`undoColumnReplace()` restores the column's exact previous values,
discards the snapshot, and a second undo fails. -/
theorem c8_witness :
    ∃ st1 st2,
      replaceEntireColumn stC8 "Status" "Reviewed" = .ok st1 ∧
      undoReplaceColumn st1 = .ok st2 ∧
      getColumnCells st2.table "Status" =
        some [.str "new", .str "old", .str "hold"] ∧
      st2.undoData = none ∧ st2.undoName = none ∧
      (∃ msg2, undoReplaceColumn st2 = .error msg2) ∧
      (∀ s : ReplaceState, s.undoData = none ∨ s.undoName = none →
        undoReplaceColumn s = .error "Nothing to Undo") :=
  c8_theorem stC8 "Status" "Reviewed" [.str "new", .str "old", .str "hold"]
    (by decide) (by decide)
